import Mathlib

/-!
# Verification of the FinBoard Realtime Data Synchronization Engine

A shallow embedding, in Lean 4, of the data-transformation and update-pipeline
code of the `finboard-assignment` repository:

* `dataTransform` utilities (`flattenObject`, `isDateString`,
  `isFinancialTimeSeries`, `hasFinancialFields`, `normalizeFinancialTimeSeries`),
* `FieldDiscoveryService.getType`,
* the `ApiService` class (auth-header construction, the per-widget rate-limit
  gate of `fetchWidgetData`, `startDataUpdates`, `startPolling`, the raw
  WebSocket reconnection path).

JavaScript runtime values are modelled by the inductive type `JsValue`
(numbers restricted to integers, which is adequate for every property proved
here: none of them depends on fractional numeric values).  JavaScript objects
and `Map`s are modelled as association lists; `Record` assignment
(`result[k] = v`, `Object.assign`) is modelled by `setKeyA`, which overwrites
the value at an existing key in place and appends new keys at the end, exactly
like JavaScript property assignment.

Host-runtime primitives that the source calls (`new Date(...)` parsing,
`String.prototype.trim`, `Number(...)`, `parseInt`, `localeCompare`, `btoa`,
`JSON.stringify`, `Array.prototype.sort`) are modelled by executable Lean
functions defined below; each such model carries a doc comment saying what it
models.  `Array.prototype.sort` is modelled as a stable merge sort with the
user comparator, matching the stable sort required by ECMA-262.
-/

namespace FinBoard

/-- A JavaScript runtime value as seen by the data-transformation code:
JSON values plus the two non-JSON cases (`undefined` and function values)
that `flattenObject` silently drops.  Numbers are modelled as integers. -/
inductive JsValue where
  | null : JsValue
  | undef : JsValue
  | bool (b : Bool) : JsValue
  | num (n : Int) : JsValue
  | str (s : String) : JsValue
  | arr (xs : List JsValue) : JsValue
  | obj (entries : List (String × JsValue)) : JsValue
  | func : JsValue
  deriving Inhabited

/-- The flat record type produced by `flattenObject`: an association list of
dot-joined paths to values (which claim C1 proves are always scalar). -/
abbrev RecordJs := List (String × JsValue)

/-! ## Association-list model of JavaScript objects and Maps -/

/-- JavaScript property assignment `m[k] = v` on an object modelled as an
association list: an existing key keeps its position and gets the new value,
a new key is appended at the end. -/
def setKeyA {α : Type} : List (String × α) → String → α → List (String × α)
  | [], k, v => [(k, v)]
  | (k', v') :: rest, k, v =>
    if k' = k then (k', v) :: rest else (k', v') :: setKeyA rest k v

/-- JavaScript property lookup `m[k]` (first entry with the key). -/
def lookupA {α : Type} (m : List (String × α)) (k : String) : Option α :=
  (m.find? (fun e => e.1 = k)).map (·.2)

/-- `Object.assign(target, src)`: assign every entry of `src` into `target`
in order (last write wins). -/
def assignAll {α : Type} (target : List (String × α)) (src : List (String × α)) :
    List (String × α) :=
  src.foldl (fun acc e => setKeyA acc e.1 e.2) target

/-- Number of entries of an association list carrying the given key. -/
def countKeyA {α : Type} (m : List (String × α)) (k : String) : Nat :=
  (m.filter (fun e => e.1 = k)).length

theorem lookupA_nil {α : Type} (k : String) : lookupA ([] : List (String × α)) k = none := rfl

theorem lookupA_setKeyA_self {α : Type} (m : List (String × α)) (k : String) (v : α) :
    lookupA (setKeyA m k v) k = some v := by
  induction m with
  | nil => simp [setKeyA, lookupA]
  | cons e rest ih =>
    by_cases h : e.1 = k
    · simp [setKeyA, h, lookupA]
    · simp [setKeyA, h, lookupA] at *
      exact ih

theorem countKeyA_nil {α : Type} (k : String) : countKeyA ([] : List (String × α)) k = 0 := rfl

/-- Setting a key makes its count the maximum of the old count and one. -/
theorem countKeyA_setKeyA {α : Type} (m : List (String × α)) (k : String) (v : α) :
    countKeyA (setKeyA m k v) k = max (countKeyA m k) 1 := by
  induction m with
  | nil => simp [setKeyA, countKeyA]
  | cons e rest ih =>
    by_cases h : e.1 = k
    · simp [setKeyA, h, countKeyA]
    · simp [setKeyA, h, countKeyA] at *
      exact ih

/-- If the key is absent (`lookupA = none`) then no entry carries it. -/
theorem countKeyA_eq_zero_of_lookupA_none {α : Type} (m : List (String × α)) (k : String)
    (h : lookupA m k = none) : countKeyA m k = 0 := by
  induction m with
  | nil => rfl
  | cons e rest ih =>
    by_cases he : e.1 = k
    · simp [lookupA, he] at h
    · simp [lookupA, he] at h
      simp [countKeyA, he] at *
      exact ih (by simpa [lookupA] using h)

/-- Other keys are unaffected by `setKeyA`. -/
theorem countKeyA_setKeyA_ne {α : Type} (m : List (String × α)) (k k' : String) (v : α)
    (h : k ≠ k') : countKeyA (setKeyA m k v) k' = countKeyA m k' := by
  induction m with
  | nil => simp [setKeyA, countKeyA, h]
  | cons e rest ih =>
    by_cases he : e.1 = k
    · subst he
      simp [setKeyA, countKeyA, List.filter_cons, h]
    · simp [setKeyA, he, countKeyA] at *
      by_cases hd : e.1 = k' <;> simp [hd, ih]

/-! ## Character and string helpers (models of the JS string primitives used) -/

/-- The regex character class `\d` (ASCII digits). -/
def isDigitC (c : Char) : Bool := 48 ≤ c.toNat && c.toNat ≤ 57

/-- JavaScript whitespace, as stripped by `String.prototype.trim` (the
characters that can actually occur in the inputs considered here). -/
def isWSC (c : Char) : Bool :=
  c = ' ' || c = '\t' || c = '\n' || c = '\r' || c = '\x0b' || c = '\x0c'

/-- Model of `String.prototype.trim` on character lists. -/
def trimL (l : List Char) : List Char :=
  ((l.dropWhile isWSC).reverse.dropWhile isWSC).reverse

/-- Model of `String.prototype.trim`. -/
def jsTrim (s : String) : String := String.mk (trimL s.toList)

/-- Model of `String.prototype.toLowerCase` (ASCII range, sufficient for the
keyword lists and literals used by the source). -/
def toLowerL (l : List Char) : List Char := l.map Char.toLower

/-- Model of `String.prototype.toLowerCase`. -/
def jsToLower (s : String) : String := String.mk (toLowerL s.toList)

/-- Does `l` start with `p`? (model of `String.prototype.startsWith`). -/
def startsWithL (p l : List Char) : Bool :=
  match p, l with
  | [], _ => true
  | _ :: _, [] => false
  | c :: ps, d :: ls => c == d && startsWithL ps ls

/-- Substring containment (model of `String.prototype.includes`). -/
def containsSub (needle l : List Char) : Bool :=
  match l with
  | [] => startsWithL needle []
  | _ :: rest => startsWithL needle l || containsSub needle rest

/-- `String.prototype.includes` on strings. -/
def jsIncludes (hay needle : String) : Bool := containsSub needle.toList hay.toList

/-- `String.prototype.startsWith` on strings. -/
def jsStartsWith (s p : String) : Bool := startsWithL p.toList s.toList

/-! ## Regex-pattern models

The source uses a handful of anchored regular expressions over dates.  They
are modelled by explicit character patterns: `.d` is `\d`, `.lit c` a literal
character, `.cls cs` a character class. -/

inductive Pat where
  | d : Pat
  | lit (c : Char) : Pat
  | cls (cs : List Char) : Pat

/-- One pattern character against one input character. -/
def patOne : Pat → Char → Bool
  | .d, c => isDigitC c
  | .lit x, c => c == x
  | .cls xs, c => xs.contains c

/-- Whole-string (`^...$`) pattern match. -/
def patMatch : List Pat → List Char → Bool
  | [], [] => true
  | [], _ :: _ => false
  | _ :: _, [] => false
  | p :: ps, c :: cs => patOne p c && patMatch ps cs

/-- Start-anchored (`^...`) pattern match: the pattern must match a prefix
of the input. -/
def patInitSeg : List Pat → List Char → Bool
  | [], _ => true
  | _ :: _, [] => false
  | p :: ps, c :: cs => patOne p c && patInitSeg ps cs

/-- `/^\d{4}-\d{2}-\d{2}$/` (ISO date). -/
def isoDatePat : List Pat :=
  [.d, .d, .d, .d, .lit '-', .d, .d, .lit '-', .d, .d]

/-- The mandatory part of `/^\d{4}-\d{2}-\d{2}T\d{2}:\d{2}(:\d{2})?/`.
The trailing optional group cannot change whether the start-anchored regex
matches, so it is omitted from the pattern. -/
def isoDateTimePat : List Pat :=
  [.d, .d, .d, .d, .lit '-', .d, .d, .lit '-', .d, .d, .lit 'T',
   .d, .d, .lit ':', .d, .d]

/-- `/^\d{10,13}$/` (bare Unix timestamp of 10 to 13 digits). -/
def digits1013 (l : List Char) : Bool :=
  l.all isDigitC && decide (10 ≤ l.length) && decide (l.length ≤ 13)

/-- The US-date regex (one or two digits, a slash-or-dash separator, one or
two digits, a slash-or-dash separator, four digits, fully anchored),
expressed as the disjunction of the four possible digit-width combinations. -/
def usDatePat (w1 w2 : Nat) : List Pat :=
  List.replicate w1 .d ++ [.cls ['/', '-']] ++ List.replicate w2 .d ++
    [.cls ['/', '-']] ++ List.replicate 4 .d

def usDateMatch (l : List Char) : Bool :=
  patMatch (usDatePat 1 1) l || patMatch (usDatePat 1 2) l ||
  patMatch (usDatePat 2 1) l || patMatch (usDatePat 2 2) l

/-- `/^\d{4}\/\d{2}\/\d{2}$/`. -/
def slashDatePat : List Pat :=
  [.d, .d, .d, .d, .lit '/', .d, .d, .lit '/', .d, .d]

/-- `/^\d{2}-\d{2}-\d{4}$/` (the source's "EU date" pattern). -/
def euDatePat : List Pat :=
  [.d, .d, .lit '-', .d, .d, .lit '-', .d, .d, .d, .d]

/-! ## Model of the JavaScript `Date` parser

`new Date(string)` / `Date.parse` as implemented by V8, restricted to the
format families that the source's regular expressions admit (ISO dates, ISO
datetimes, `M/D/YYYY` and `M-D-YYYY` legacy dates, `YYYY/MM/DD`).  Strings
outside these families are treated as unparseable, and datetimes without a
zone are taken as UTC; neither simplification affects any theorem below,
which depend only on this being a fixed deterministic function (and on its
values at the concrete dates appearing in witnesses, where the model agrees
with V8). -/

/-- Numeric value of a digit list (digits already validated). -/
def digitsToNat : List Char → Nat → Nat
  | [], acc => acc
  | c :: cs, acc => digitsToNat cs (acc * 10 + (c.toNat - 48))

def isLeapYear (y : Int) : Bool :=
  (y % 4 == 0 && y % 100 != 0) || y % 400 == 0

def daysInMonth (y m : Int) : Int :=
  if m = 1 || m = 3 || m = 5 || m = 7 || m = 8 || m = 10 || m = 12 then 31
  else if m = 4 || m = 6 || m = 9 || m = 11 then 30
  else if m = 2 then (if isLeapYear y then 29 else 28)
  else 0

/-- Days from the Unix epoch to year `y`, month `m`, day `d` (proleptic
Gregorian, valid for the years of interest here). -/
def daysFromCivil (y m d : Int) : Int :=
  let y' := if m ≤ 2 then y - 1 else y
  let era : Int := y' / 400
  let yoe := y' - era * 400
  let mp := if m > 2 then m - 3 else m + 9
  let doy := (153 * mp + 2) / 5 + d - 1
  let doe := yoe * 365 + yoe / 4 - yoe / 100 + doy
  era * 146097 + doe - 719468

/-- Milliseconds since the epoch of a valid calendar date at midnight UTC,
or `none` if the y/m/d combination is not a real calendar date. -/
def civilMs (y m d : Int) : Option Int :=
  if 1 ≤ m && m ≤ 12 && 1 ≤ d && d ≤ daysInMonth y m then
    some (daysFromCivil y m d * 86400000)
  else none

/-- Parse exactly `n` digits from the front of `l`, returning their value and
the rest. -/
def takeDigits : Nat → List Char → Option (Nat × List Char)
  | 0, l => some (0, l)
  | _ + 1, [] => none
  | n + 1, c :: cs =>
    if isDigitC c then
      match takeDigits n cs with
      | some (v, rest) => some ((c.toNat - 48) * 10 ^ n + v, rest)
      | none => none
    else none

/-- Parse the optional time-of-day tail `THH:MM[:SS][Z|±HH:MM]` of an ISO
datetime, given everything after the `T`.  Returns the millisecond offset
into the day, or `none` when malformed or out of range. -/
def parseTimeTail (l : List Char) : Option Int :=
  match takeDigits 2 l with
  | none => none
  | some (hh, r1) =>
    match r1 with
    | ':' :: r2 =>
      match takeDigits 2 r2 with
      | none => none
      | some (mm, r3) =>
        let withSec : Option (Nat × List Char) :=
          match r3 with
          | ':' :: r4 =>
            match takeDigits 2 r4 with
            | none => none
            | some (ss, r5) => some (ss, r5)
          | _ => some (0, r3)
        match withSec with
        | none => none
        | some (ss, r6) =>
          let zoneOk :=
            match r6 with
            | [] => true
            | ['Z'] => true
            | '+' :: z => (takeDigits 2 z).bind (fun p =>
                match p.2 with
                | ':' :: z2 => (takeDigits 2 z2).map (fun q => q.2.isEmpty)
                | _ => none) |>.getD false
            | '-' :: z => (takeDigits 2 z).bind (fun p =>
                match p.2 with
                | ':' :: z2 => (takeDigits 2 z2).map (fun q => q.2.isEmpty)
                | _ => none) |>.getD false
            | _ => false
          if hh ≤ 23 && mm ≤ 59 && ss ≤ 59 && zoneOk then
            some ((hh * 3600 + mm * 60 + ss : Nat) * 1000)
          else none
    | _ => none

/-- Model of `Date.parse` / `new Date(string).getTime()`: `some ms` when the
string parses to a valid date, `none` for `Invalid Date` (`NaN`). -/
def jsDateParseMs (s : String) : Option Int :=
  let l := s.toList
  -- ISO date YYYY-MM-DD
  match l with
  | [a, b, c, d, '-', e, f, '-', g, h] =>
    if [a, b, c, d, e, f, g, h].all isDigitC then
      civilMs (digitsToNat [a, b, c, d] 0) (digitsToNat [e, f] 0) (digitsToNat [g, h] 0)
    else none
  | _ =>
  -- ISO datetime YYYY-MM-DDT...
  match l with
  | a :: b :: c :: d :: '-' :: e :: f :: '-' :: g :: h :: 'T' :: rest =>
    if [a, b, c, d, e, f, g, h].all isDigitC then
      match civilMs (digitsToNat [a, b, c, d] 0) (digitsToNat [e, f] 0)
          (digitsToNat [g, h] 0), parseTimeTail rest with
      | some dayMs, some tMs => some (dayMs + tMs)
      | _, _ => none
    else none
  | _ =>
  -- YYYY/MM/DD
  match l with
  | [a, b, c, d, '/', e, f, '/', g, h] =>
    if [a, b, c, d, e, f, g, h].all isDigitC then
      civilMs (digitsToNat [a, b, c, d] 0) (digitsToNat [e, f] 0) (digitsToNat [g, h] 0)
    else none
  | _ =>
  -- legacy M/D/YYYY or M-D-YYYY (V8 reads the first component as the month
  -- even with '-' separators, so "25-12-2024" is Invalid Date)
  if usDateMatch l || patMatch euDatePat l then
    let sep := fun c => c = '/' || c = '-'
    let c1 := l.takeWhile (fun c => !sep c)
    let r1 := (l.dropWhile (fun c => !sep c)).drop 1
    let c2 := r1.takeWhile (fun c => !sep c)
    let c3 := (r1.dropWhile (fun c => !sep c)).drop 1
    civilMs (digitsToNat c3 0) (digitsToNat c1 0) (digitsToNat c2 0)
  else none

/-- `!isNaN(new Date(s).getTime())`. -/
def jsDateValid (s : String) : Bool := (jsDateParseMs s).isSome

/-- `isDateString` from `dataTransform`: the date-pattern battery.  Each
regex test that succeeds immediately returns the result of the corresponding
parseability check (except the bare-timestamp pattern, which returns true
outright). -/
def isDateString (s : String) : Bool :=
  let l := s.toList
  if patMatch isoDatePat l then jsDateValid s
  else if patInitSeg isoDateTimePat l then jsDateValid s
  else if digits1013 l then true
  else if usDateMatch l then jsDateValid s
  else if patMatch slashDatePat l then jsDateValid s
  else if patMatch euDatePat l then jsDateValid s
  else false

/-- `isDateKey` from `dataTransform`. -/
def isDateKey (k : String) : Bool := isDateString k

/-! ## Model of `JSON.stringify` -/

/-- JSON string escaping of one character. -/
def escapeJsonChar (c : Char) : String :=
  if c = '"' then "\\\""
  else if c = '\\' then "\\\\"
  else if c = '\n' then "\\n"
  else if c = '\r' then "\\r"
  else if c = '\t' then "\\t"
  else if c.toNat < 32 then
    "\\u00" ++ String.mk [Nat.digitChar (c.toNat / 16), Nat.digitChar (c.toNat % 16)]
  else String.mk [c]

/-- A JSON string literal. -/
def quoteJson (s : String) : String :=
  "\"" ++ String.join (s.toList.map escapeJsonChar) ++ "\""

mutual

/-- Model of `JSON.stringify` (applied by `flattenObject` only to arrays).
In arrays, `undefined` and function elements serialize as `null`; in objects,
entries with such values are omitted — as in JavaScript.  (A bare top-level
`undefined`/function is rendered `"null"` here; that case is unreachable from
`flattenObject`.) -/
def jsonStringify : JsValue → String
  | .null => "null"
  | .undef => "null"
  | .func => "null"
  | .bool b => if b then "true" else "false"
  | .num n => toString n
  | .str s => quoteJson s
  | .arr xs => "[" ++ jsonStringifyList xs ++ "]"
  | .obj es => "\x7b" ++ jsonStringifyEntries es ++ "\x7d"
termination_by v => (sizeOf v, 0)
decreasing_by all_goals (simp_wf; try omega)

/-- Array elements, comma separated. -/
def jsonStringifyList : List JsValue → String
  | [] => ""
  | [x] => jsonStringifyElem x
  | x :: y :: rest => jsonStringifyElem x ++ "," ++ jsonStringifyList (y :: rest)
termination_by l => (sizeOf l, 2)
decreasing_by all_goals (simp_wf; try omega)

/-- One array element (`undefined`/function become `null`). -/
def jsonStringifyElem : JsValue → String
  | .undef => "null"
  | .func => "null"
  | v => jsonStringify v
termination_by v => (sizeOf v, 1)
decreasing_by all_goals (simp_wf; try omega)

/-- Object entries, comma separated, skipping `undefined`/function values. -/
def jsonStringifyEntries : List (String × JsValue) → String
  | [] => ""
  | (k, v) :: rest =>
    match v with
    | .undef => jsonStringifyEntries rest
    | .func => jsonStringifyEntries rest
    | v' =>
      let s := quoteJson k ++ ":" ++ jsonStringify v'
      let r := jsonStringifyEntries rest
      if r = "" then s else s ++ "," ++ r
termination_by l => (sizeOf l, 2)
decreasing_by all_goals (simp_wf; try omega)

end

/-! ## `flattenObject` -/

/-- The dot-joined key: `` prefix ? `${prefix}.${key}` : key `` (an empty
accumulated path is falsy in JavaScript). -/
def joinKey (pre k : String) : String := if pre = "" then k else pre ++ "." ++ k

/-- `Object.entries` of a JavaScript array: index keys in order. -/
def indexEntries : Nat → List JsValue → List (String × JsValue)
  | _, [] => []
  | i, x :: rest => (toString i, x) :: indexEntries (i + 1) rest

/-- The entry loop of `flattenObject`, threading the `result` accumulator.
Per entry, mirroring the source's branch order: `null` is stored as null;
arrays are stored as their `JSON.stringify` string; nested objects are
recursively flattened into a fresh record that is `Object.assign`ed onto the
accumulator; string/number/boolean are stored verbatim; anything else
(`undefined`, functions) is silently skipped. -/
def flattenEntries (acc : RecordJs) (pre : String) : List (String × JsValue) → RecordJs
  | [] => acc
  | (k, v) :: rest =>
    let newKey := joinKey pre k
    let acc' : RecordJs :=
      match v with
      | .null => setKeyA acc newKey .null
      | .arr xs => setKeyA acc newKey (.str (jsonStringify (.arr xs)))
      | .obj es => assignAll acc (flattenEntries [] newKey es)
      | .str s => setKeyA acc newKey (.str s)
      | .num n => setKeyA acc newKey (.num n)
      | .bool b => setKeyA acc newKey (.bool b)
      | .undef => acc
      | .func => acc
    flattenEntries acc' pre rest
termination_by l => sizeOf l
decreasing_by all_goals (simp_wf; try omega)

/-- `flattenObject` from `dataTransform`: a non-object (in the JavaScript
`typeof` sense — so neither an object nor an array) yields the empty record;
otherwise iterate `Object.entries`. -/
def flattenObject (v : JsValue) (pre : String) : RecordJs :=
  match v with
  | .obj es => flattenEntries [] pre es
  | .arr xs => flattenEntries [] pre (indexEntries 0 xs)
  | _ => []

/-- Scalar record values in the sense of claim C1: string, number, boolean
or null — never an object or array. -/
def isScalarJsV : JsValue → Bool
  | .null => true
  | .bool _ => true
  | .num _ => true
  | .str _ => true
  | _ => false

/-! ### Record-invariant lemmas for `flattenObject` -/

theorem all_setKeyA {α : Type} (P : String × α → Bool) :
    ∀ (m : List (String × α)) (k : String) (v : α),
      m.all P = true → P (k, v) = true → (setKeyA m k v).all P = true := by
  intro m
  induction m with
  | nil => intro k v _ hp; simpa [setKeyA] using hp
  | cons e rest ih =>
    intro k v hall hp
    obtain ⟨k', v'⟩ := e
    by_cases h : k' = k
    · subst h
      simp [setKeyA] at *
      exact ⟨hp, hall.2⟩
    · simp [setKeyA, h] at *
      exact ⟨hall.1, ih k v hall.2 hp⟩

theorem all_assignAll {α : Type} (P : String × α → Bool) :
    ∀ (src acc : List (String × α)),
      acc.all P = true → src.all P = true → (assignAll acc src).all P = true := by
  intro src
  induction src with
  | nil => intro acc h _; simpa [assignAll] using h
  | cons e rest ih =>
    intro acc hacc hsrc
    obtain ⟨k, v⟩ := e
    simp only [List.all_cons, Bool.and_eq_true] at hsrc
    have : assignAll acc ((k, v) :: rest) = assignAll (setKeyA acc k v) rest := rfl
    rw [this]
    exact ih _ (all_setKeyA P acc k v hacc hsrc.1) hsrc.2

/-- Every value written into the accumulator by the flatten loop is a
scalar, so the loop preserves all-scalar-ness of the record. -/
theorem flattenEntries_all_scalar :
    ∀ (n : Nat) (es : List (String × JsValue)) (acc : RecordJs) (pre : String),
      sizeOf es ≤ n →
      (acc.all fun e => isScalarJsV e.2) = true →
      ((flattenEntries acc pre es).all fun e => isScalarJsV e.2) = true := by
  intro n
  induction n with
  | zero =>
    intro es acc pre h hacc
    cases es with
    | nil => simpa [flattenEntries] using hacc
    | cons e rest =>
      exfalso
      have : 0 < sizeOf (e :: rest) := by
        simp only [List.cons.sizeOf_spec]
        omega
      omega
  | succ n ih =>
    intro es acc pre h hacc
    cases es with
    | nil => simpa [flattenEntries] using hacc
    | cons e rest =>
      obtain ⟨k, v⟩ := e
      have hrest : sizeOf rest ≤ n := by
        simp only [List.cons.sizeOf_spec, Prod.mk.sizeOf_spec] at h
        have : 0 < sizeOf v := by cases v <;> simp
        omega
      cases v with
      | null =>
        simp only [flattenEntries]
        exact ih rest _ pre hrest (all_setKeyA _ acc _ _ hacc rfl)
      | undef =>
        simp only [flattenEntries]
        exact ih rest _ pre hrest hacc
      | func =>
        simp only [flattenEntries]
        exact ih rest _ pre hrest hacc
      | bool b =>
        simp only [flattenEntries]
        exact ih rest _ pre hrest (all_setKeyA _ acc _ _ hacc rfl)
      | num m =>
        simp only [flattenEntries]
        exact ih rest _ pre hrest (all_setKeyA _ acc _ _ hacc rfl)
      | str s =>
        simp only [flattenEntries]
        exact ih rest _ pre hrest (all_setKeyA _ acc _ _ hacc rfl)
      | arr xs =>
        simp only [flattenEntries]
        exact ih rest _ pre hrest (all_setKeyA _ acc _ _ hacc rfl)
      | obj es' =>
        simp only [flattenEntries]
        have hes' : sizeOf es' ≤ n := by
          simp only [List.cons.sizeOf_spec, Prod.mk.sizeOf_spec,
            JsValue.obj.sizeOf_spec] at h
          omega
        have hinner := ih es' [] (joinKey pre k) hes' rfl
        exact ih rest _ pre hrest (all_assignAll _ _ acc hacc hinner)

/-! ### Key-uniqueness lemmas (needed to state recursive flattening cleanly) -/

def keysOf {α : Type} (m : List (String × α)) : List String := m.map Prod.fst

theorem keysOf_setKeyA {α : Type} :
    ∀ (m : List (String × α)) (k : String) (v : α),
      keysOf (setKeyA m k v) = if k ∈ keysOf m then keysOf m else keysOf m ++ [k] := by
  intro m
  induction m with
  | nil => intro k v; simp [setKeyA, keysOf]
  | cons e rest ih =>
    intro k v
    obtain ⟨k', v'⟩ := e
    by_cases h : k' = k
    · subst h
      simp [setKeyA, keysOf]
    · simp only [setKeyA, if_neg h, keysOf, List.map_cons]
      simp only [keysOf] at ih
      rw [ih]
      by_cases hm : k ∈ List.map Prod.fst rest
      · rw [if_pos hm,
          if_pos (show k ∈ k' :: List.map Prod.fst rest from List.mem_cons_of_mem _ hm)]
      · have hnc : k ∉ k' :: List.map Prod.fst rest := by
          intro hc
          rcases List.mem_cons.mp hc with h1 | h2
          · exact h h1.symm
          · exact hm h2
        rw [if_neg hm, if_neg hnc, List.cons_append]

theorem nodup_setKeyA {α : Type} (m : List (String × α)) (k : String) (v : α)
    (h : (keysOf m).Nodup) : (keysOf (setKeyA m k v)).Nodup := by
  rw [keysOf_setKeyA]
  by_cases hm : k ∈ keysOf m
  · simpa [hm] using h
  · simp only [hm, if_neg, if_false]
    simpa [List.nodup_append] using ⟨h, hm⟩

theorem nodup_assignAll {α : Type} :
    ∀ (src acc : List (String × α)), (keysOf acc).Nodup →
      (keysOf (assignAll acc src)).Nodup := by
  intro src
  induction src with
  | nil => intro acc h; simpa [assignAll] using h
  | cons e rest ih =>
    intro acc hacc
    have : assignAll acc (e :: rest) = assignAll (setKeyA acc e.1 e.2) rest := rfl
    rw [this]
    exact ih _ (nodup_setKeyA acc e.1 e.2 hacc)

theorem flattenEntries_keys_nodup :
    ∀ (n : Nat) (es : List (String × JsValue)) (acc : RecordJs) (pre : String),
      sizeOf es ≤ n → (keysOf acc).Nodup →
      (keysOf (flattenEntries acc pre es)).Nodup := by
  intro n
  induction n with
  | zero =>
    intro es acc pre h hacc
    cases es with
    | nil => simpa [flattenEntries] using hacc
    | cons e rest =>
      exfalso
      have : 0 < sizeOf (e :: rest) := by
        simp only [List.cons.sizeOf_spec]; omega
      omega
  | succ n ih =>
    intro es acc pre h hacc
    cases es with
    | nil => simpa [flattenEntries] using hacc
    | cons e rest =>
      obtain ⟨k, v⟩ := e
      have hrest : sizeOf rest ≤ n := by
        simp only [List.cons.sizeOf_spec, Prod.mk.sizeOf_spec] at h
        have : 0 < sizeOf v := by cases v <;> simp
        omega
      cases v with
      | null =>
        simp only [flattenEntries]
        exact ih rest _ pre hrest (nodup_setKeyA acc _ _ hacc)
      | undef => simp only [flattenEntries]; exact ih rest _ pre hrest hacc
      | func => simp only [flattenEntries]; exact ih rest _ pre hrest hacc
      | bool b =>
        simp only [flattenEntries]
        exact ih rest _ pre hrest (nodup_setKeyA acc _ _ hacc)
      | num m =>
        simp only [flattenEntries]
        exact ih rest _ pre hrest (nodup_setKeyA acc _ _ hacc)
      | str s =>
        simp only [flattenEntries]
        exact ih rest _ pre hrest (nodup_setKeyA acc _ _ hacc)
      | arr xs =>
        simp only [flattenEntries]
        exact ih rest _ pre hrest (nodup_setKeyA acc _ _ hacc)
      | obj es' =>
        simp only [flattenEntries]
        exact ih rest _ pre hrest (nodup_assignAll _ acc hacc)

theorem setKeyA_fresh {α : Type} :
    ∀ (m : List (String × α)) (k : String) (v : α),
      k ∉ keysOf m → setKeyA m k v = m ++ [(k, v)] := by
  intro m
  induction m with
  | nil => intro k v _; rfl
  | cons e rest ih =>
    intro k v hk
    obtain ⟨k', v'⟩ := e
    simp only [keysOf, List.map_cons, List.mem_cons] at hk
    push_neg at hk
    have h1 : ¬k' = k := fun hh => hk.1 hh.symm
    simp only [setKeyA, if_neg h1, List.cons_append]
    rw [ih k v (by simpa [keysOf] using hk.2)]

theorem assignAll_append_disjoint {α : Type} :
    ∀ (src acc : List (String × α)), (keysOf src).Nodup →
      (∀ x ∈ keysOf src, x ∉ keysOf acc) → assignAll acc src = acc ++ src := by
  intro src
  induction src with
  | nil => intro acc _ _; simp [assignAll]
  | cons e rest ih =>
    intro acc hnd hdis
    obtain ⟨k, v⟩ := e
    have hstep : assignAll acc ((k, v) :: rest) = assignAll (setKeyA acc k v) rest := rfl
    have hkfresh : k ∉ keysOf acc := hdis k (by simp [keysOf])
    rw [hstep, setKeyA_fresh acc k v hkfresh]
    simp only [keysOf, List.map_cons, List.nodup_cons] at hnd
    have hres := ih (acc ++ [(k, v)]) hnd.2 ?hdis
    · rw [hres, List.append_assoc]
      rfl
    case hdis =>
      intro x hx
      simp only [keysOf, List.map_append, List.mem_append] at *
      rintro (hxa | hxk)
      · exact hdis x (by simp [keysOf, hx]) hxa
      · simp only [List.map_cons, List.map_nil, List.mem_singleton] at hxk
        subst hxk
        exact hnd.1 hx

theorem assignAll_nil {α : Type} (src : List (String × α)) (h : (keysOf src).Nodup) :
    assignAll [] src = src := by
  have := assignAll_append_disjoint src [] h (by intro x _; simp [keysOf])
  simpa using this

/-- Claim C1.  Every value in a record produced by `flattenObject` is a
string, number, boolean or null — never an object or array.  In addition,
the per-entry behaviour the claim describes: every non-object input yields
the empty record; a single `null` entry is stored as null; a single array
entry is stored as its JSON-serialized string; a single scalar entry is
stored verbatim; and a single nested-object entry is recursively flattened
under the dot-joined key. -/
theorem c1_flatten_values_scalar
    (v : JsValue) (pre k s : String) (xs : List JsValue)
    (es : List (String × JsValue)) (n : Int) (b : Bool) :
    ((flattenObject v pre).all fun e => isScalarJsV e.2) = true
    ∧ flattenObject .null pre = []
    ∧ flattenObject .undef pre = []
    ∧ flattenObject (.bool b) pre = []
    ∧ flattenObject (.num n) pre = []
    ∧ flattenObject (.str s) pre = []
    ∧ flattenObject .func pre = []
    ∧ flattenObject (.obj [(k, .null)]) pre = [(joinKey pre k, .null)]
    ∧ flattenObject (.obj [(k, .arr xs)]) pre
        = [(joinKey pre k, .str (jsonStringify (.arr xs)))]
    ∧ flattenObject (.obj [(k, .str s)]) pre = [(joinKey pre k, .str s)]
    ∧ flattenObject (.obj [(k, .num n)]) pre = [(joinKey pre k, .num n)]
    ∧ flattenObject (.obj [(k, .bool b)]) pre = [(joinKey pre k, .bool b)]
    ∧ flattenObject (.obj [(k, .obj es)]) pre
        = flattenObject (.obj es) (joinKey pre k) := by
  refine ⟨?_, rfl, rfl, rfl, rfl, rfl, rfl, ?_, ?_, ?_, ?_, ?_, ?_⟩
  · cases v with
    | obj es' => exact flattenEntries_all_scalar (sizeOf es') es' [] pre le_rfl rfl
    | arr xs' =>
      exact flattenEntries_all_scalar (sizeOf (indexEntries 0 xs'))
        (indexEntries 0 xs') [] pre le_rfl rfl
    | null => rfl
    | undef => rfl
    | func => rfl
    | bool b' => rfl
    | num n' => rfl
    | str s' => rfl
  · simp [flattenObject, flattenEntries, setKeyA]
  · simp [flattenObject, flattenEntries, setKeyA]
  · simp [flattenObject, flattenEntries, setKeyA]
  · simp [flattenObject, flattenEntries, setKeyA]
  · simp [flattenObject, flattenEntries, setKeyA]
  · show flattenEntries [] pre [(k, .obj es)] = flattenEntries [] (joinKey pre k) es
    have h1 : flattenEntries [] pre [(k, .obj es)]
        = assignAll [] (flattenEntries [] (joinKey pre k) es) := by
      simp [flattenEntries]
    rw [h1, assignAll_nil _ (flattenEntries_keys_nodup (sizeOf es) es [] (joinKey pre k)
      le_rfl List.nodup_nil)]

/-- The flatten loop ignores an entry whose value is `undefined` or a
function. -/
theorem flattenEntries_skips_junk (k : String) (v : JsValue)
    (hv : v = .undef ∨ v = .func) (es₂ : List (String × JsValue)) :
    ∀ (es₁ : List (String × JsValue)) (acc : RecordJs) (pre : String),
      flattenEntries acc pre (es₁ ++ (k, v) :: es₂)
        = flattenEntries acc pre (es₁ ++ es₂) := by
  intro es₁
  induction es₁ with
  | nil =>
    intro acc pre
    rcases hv with h | h <;> subst h <;> simp [flattenEntries]
  | cons e rest ih =>
    intro acc pre
    obtain ⟨k₁, v₁⟩ := e
    cases v₁ <;> (simp only [List.cons_append, flattenEntries]; exact ih _ pre)

/-- Claim C10.  `flattenObject` silently drops any entry whose value is
neither null, an array, an object, nor a string/number/boolean: removing an
`undefined`-valued or function-valued entry from the input object leaves the
output record unchanged, and an object holding only such an entry flattens
to the empty record (the key is entirely absent). -/
theorem c10_flatten_drops_nonjson
    (es₁ es₂ : List (String × JsValue)) (k pre : String) :
    flattenObject (.obj (es₁ ++ (k, .undef) :: es₂)) pre
      = flattenObject (.obj (es₁ ++ es₂)) pre
    ∧ flattenObject (.obj (es₁ ++ (k, .func) :: es₂)) pre
      = flattenObject (.obj (es₁ ++ es₂)) pre
    ∧ flattenObject (.obj [(k, .undef)]) pre = []
    ∧ flattenObject (.obj [(k, .func)]) pre = [] := by
  refine ⟨?_, ?_, ?_, ?_⟩
  · exact flattenEntries_skips_junk k .undef (Or.inl rfl) es₂ es₁ [] pre
  · exact flattenEntries_skips_junk k .func (Or.inr rfl) es₂ es₁ [] pre
  · simp [flattenObject, flattenEntries]
  · simp [flattenObject, flattenEntries]

/-! ## Models of `String(...)`, `Number(...)` and `parseInt(...)` -/

mutual

/-- Model of JavaScript `String(v)` conversion.  (Function values never
reach a conversion site in the code under study; the placeholder text is
irrelevant to every theorem.) -/
def jsToString : JsValue → String
  | .null => "null"
  | .undef => "undefined"
  | .bool b => if b then "true" else "false"
  | .num n => toString n
  | .str s => s
  | .arr xs => jsArrJoin xs
  | .obj _ => "[object Object]"
  | .func => "function"
termination_by v => (sizeOf v, 0)
decreasing_by all_goals (simp_wf; try omega)

/-- `Array.prototype.toString`, i.e. `join(",")`. -/
def jsArrJoin : List JsValue → String
  | [] => ""
  | [x] => jsElemString x
  | x :: y :: rest => jsElemString x ++ "," ++ jsArrJoin (y :: rest)
termination_by l => (sizeOf l, 2)
decreasing_by all_goals (simp_wf; try omega)

/-- One array element in a join (`null`/`undefined` render empty). -/
def jsElemString : JsValue → String
  | .null => ""
  | .undef => ""
  | v => jsToString v
termination_by v => (sizeOf v, 1)
decreasing_by all_goals (simp_wf; try omega)

end

def isHexDigitC (c : Char) : Bool :=
  isDigitC c || (97 ≤ c.toNat && c.toNat ≤ 102) || (65 ≤ c.toNat && c.toNat ≤ 70)

/-- Exponent part of a numeric literal: optional sign, then one or more
digits and nothing else. -/
def expDigitsValid (l : List Char) : Bool :=
  match l with
  | '+' :: d => !d.isEmpty && d.all isDigitC
  | '-' :: d => !d.isEmpty && d.all isDigitC
  | d => !d.isEmpty && d.all isDigitC

/-- Decimal numeric literal (after an optional sign): digits, an optional
fractional part, an optional exponent. -/
def decNumberValid (u : List Char) : Bool :=
  let ds := u.takeWhile isDigitC
  let r1 := u.dropWhile isDigitC
  match r1 with
  | [] => !ds.isEmpty
  | '.' :: r2 =>
    let fs := r2.takeWhile isDigitC
    let r3 := r2.dropWhile isDigitC
    (!ds.isEmpty || !fs.isEmpty) &&
      (match r3 with
       | [] => true
       | 'e' :: r4 => expDigitsValid r4
       | 'E' :: r4 => expDigitsValid r4
       | _ => false)
  | 'e' :: r2 => !ds.isEmpty && expDigitsValid r2
  | 'E' :: r2 => !ds.isEmpty && expDigitsValid r2
  | _ => false

/-- Model of `!isNaN(Number(s))` for a string: trim, empty is numeric (0),
`Infinity` forms, hex/octal/binary literals, otherwise a decimal literal. -/
def jsNumberValidL (l : List Char) : Bool :=
  let t := trimL l
  match t with
  | [] => true
  | c :: rest =>
    if c = '+' || c = '-' then decide (rest = "Infinity".toList) || decNumberValid rest
    else if c = '0' then
      match rest with
      | [] => true
      | x :: r2 =>
        if x = 'x' || x = 'X' then !r2.isEmpty && r2.all isHexDigitC
        else if x = 'o' || x = 'O' then
          !r2.isEmpty && r2.all (fun c2 => 48 ≤ c2.toNat && c2.toNat ≤ 55)
        else if x = 'b' || x = 'B' then
          !r2.isEmpty && r2.all (fun c2 => c2 = '0' || c2 = '1')
        else decide (t = "Infinity".toList) || decNumberValid t
    else decide (t = "Infinity".toList) || decNumberValid t

/-- Model of `!isNaN(Number(v))` for an arbitrary value: numbers, booleans
and `null` coerce to numbers; `undefined`, plain objects and functions do
not; strings parse as numeric literals; arrays coerce through their joined
string form. -/
def jsToNumberValid : JsValue → Bool
  | .num _ => true
  | .bool _ => true
  | .null => true
  | .undef => false
  | .str s => jsNumberValidL s.toList
  | .arr xs => jsNumberValidL (jsArrJoin xs).toList
  | .obj _ => false
  | .func => false

/-- Model of `parseInt(s)`: skip leading whitespace, optional sign, then the
longest run of leading digits; `none` (`NaN`) when there is no digit. -/
def jsParseInt (s : String) : Option Int :=
  let t := s.toList.dropWhile isWSC
  let core : List Char → Option Int := fun u =>
    let ds := u.takeWhile isDigitC
    if ds.isEmpty then none else some (Int.ofNat (digitsToNat ds 0))
  match t with
  | '+' :: rest => core rest
  | '-' :: rest => (core rest).map (fun n => -n)
  | _ => core t

/-! ## Financial time-series detector (`dataTransform`) -/

/-- The fixed financial keyword list of `hasFinancialFields`. -/
def financialKeywords : List String :=
  ["open", "high", "low", "close", "volume", "price", "rate", "value",
   "1. open", "2. high", "3. low", "4. close", "5. volume",
   "adj_close", "adjusted_close", "vwap", "typical_price",
   "bid", "ask", "spread", "sma", "ema", "rsi", "macd"]

/-- `hasFinancialFields` from `dataTransform`: count how many keywords are
case-insensitively contained in some key; if at least two match, succeed;
otherwise fall back to counting keys with numeric-coercible values. -/
def hasFinancialFields (es : List (String × JsValue)) : Bool :=
  let keys := es.map Prod.fst
  let matchCount := (financialKeywords.filter fun kw =>
    keys.any fun k => containsSub (toLowerL kw.toList) (toLowerL k.toList)).length
  if 2 ≤ matchCount then true
  else
    let numericCount := (keys.filter fun k =>
      jsToNumberValid ((lookupA es k).getD .undef)).length
    decide (2 ≤ numericCount)

/-- `hasFinancialFields` as applied by `isFinancialTimeSeries` (the value is
already known to be a plain object when this is reached). -/
def hasFinancialFieldsV : JsValue → Bool
  | .obj es => hasFinancialFields es
  | _ => false

/-- `val && typeof val === "object" && !Array.isArray(val)`. -/
def isNonArrayObjectV : JsValue → Bool
  | .obj _ => true
  | _ => false

/-- `isFinancialTimeSeries` from `dataTransform`. -/
def isFinancialTimeSeries (v : JsValue) : Bool :=
  match v with
  | .obj es =>
    if es.length < 2 then false
    else if !(es.all fun e => isDateKey e.1) then false
    else if !(es.all fun e => isNonArrayObjectV e.2) then false
    else es.any fun e => hasFinancialFieldsV e.2
  | _ => false

/-- Modelled from the spec (claim C2 as stated): the financial-field
heuristic reading "at least 2 of its keys case-insensitively contain a
keyword from the fixed financial keyword list" as counting matching KEYS,
with the numeric fallback unchanged. -/
def specFinancialHeuristicClaim (es : List (String × JsValue)) : Bool :=
  decide (2 ≤ ((es.map Prod.fst).filter fun k =>
    financialKeywords.any fun kw =>
      containsSub (toLowerL kw.toList) (toLowerL k.toList)).length)
  || decide (2 ≤ ((es.map Prod.fst).filter fun k =>
    jsToNumberValid ((lookupA es k).getD .undef)).length)

/-- Modelled from the spec (claim C2 as stated): a non-array object with at
least 2 entries, every key date-like, every value a non-array object, and at
least one value-object passing the key-counting heuristic. -/
def specIsFinancialTimeSeriesClaim (v : JsValue) : Bool :=
  match v with
  | .obj es =>
    decide (2 ≤ es.length) && (es.all fun e => isDateKey e.1)
      && (es.all fun e => isNonArrayObjectV e.2)
      && (es.any fun e =>
            match e.2 with
            | .obj fs => specFinancialHeuristicClaim fs
            | _ => false)
  | _ => false

/-- The amended heuristic: at least 2 KEYWORDS of the fixed list each appear
case-insensitively as a substring of some key, or at least 2 keys hold
numeric-coercible values (as the code computes). -/
def specFinancialHeuristicAmended (es : List (String × JsValue)) : Bool :=
  decide (2 ≤ (financialKeywords.filter fun kw =>
    (es.map Prod.fst).any fun k =>
      containsSub (toLowerL kw.toList) (toLowerL k.toList)).length)
  || decide (2 ≤ ((es.map Prod.fst).filter fun k =>
    jsToNumberValid ((lookupA es k).getD .undef)).length)

/-- Claim C2, amended predicate: as the claim states it, but with the
keyword clause counting matched keywords rather than matching keys. -/
def specIsFinancialTimeSeriesAmended (v : JsValue) : Bool :=
  match v with
  | .obj es =>
    decide (2 ≤ es.length) && (es.all fun e => isDateKey e.1)
      && (es.all fun e => isNonArrayObjectV e.2)
      && (es.any fun e =>
            match e.2 with
            | .obj fs => specFinancialHeuristicAmended fs
            | _ => false)
  | _ => false

/-- Counterexample to claim C2 as stated.  The object
`{"2025-01-01": {"1. open": "x"}, "2025-01-02": {"b": "y"}}` is accepted by
`isFinancialTimeSeries` (the single key `"1. open"` contains the two
keywords `"open"` and `"1. open"`, so the keyword match-count reaches 2),
yet no value-object has 2 keys containing a keyword, nor 2 numeric fields,
so the claim's key-counting reading says it must be rejected. -/
theorem c2_counterexample :
    isFinancialTimeSeries
      (.obj [("2025-01-01", .obj [("1. open", .str "x")]),
             ("2025-01-02", .obj [("b", .str "y")])]) = true
    ∧ specIsFinancialTimeSeriesClaim
      (.obj [("2025-01-01", .obj [("1. open", .str "x")]),
             ("2025-01-02", .obj [("b", .str "y")])]) = false := by
  constructor
  · decide
  · decide

theorem hasFinancialFields_eq_amended (es : List (String × JsValue)) :
    hasFinancialFields es = specFinancialHeuristicAmended es := by
  unfold hasFinancialFields specFinancialHeuristicAmended
  by_cases h : 2 ≤ (financialKeywords.filter fun kw =>
      (es.map Prod.fst).any fun k =>
        containsSub (toLowerL kw.toList) (toLowerL k.toList)).length
  · simp [h]
  · simp [h]

/-- Claim C2, amended.  `isFinancialTimeSeries` accepts exactly the
non-array objects with at least 2 entries, all of whose keys pass the
date-pattern battery, all of whose values are non-array objects, at least
one value-object of which matches the financial heuristic (at least two
keywords each contained in some key, or at least two numeric-coercible
fields); and in particular any object containing one non-date key is
rejected. -/
theorem c2_financial_series_detector :
    (∀ v : JsValue, isFinancialTimeSeries v = specIsFinancialTimeSeriesAmended v)
    ∧ (∀ (es : List (String × JsValue)) (k : String) (w : JsValue),
        (k, w) ∈ es → isDateKey k = false → isFinancialTimeSeries (.obj es) = false) := by
  constructor
  · intro v
    cases v with
    | obj es =>
      show isFinancialTimeSeries (.obj es) = _
      unfold isFinancialTimeSeries specIsFinancialTimeSeriesAmended
      have hany : (es.any fun e => hasFinancialFieldsV e.2)
          = (es.any fun e =>
              match e.2 with
              | .obj fs => specFinancialHeuristicAmended fs
              | _ => false) := by
        induction es with
        | nil => rfl
        | cons e rest ih =>
          simp only [List.any_cons, ih]
          congr 1
          cases e.2 <;> simp [hasFinancialFieldsV, hasFinancialFields_eq_amended]
      by_cases h1 : es.length < 2
      · simp [h1, show ¬(2 ≤ es.length) from by omega]
      · by_cases h2 : (es.all fun e => isDateKey e.1) = true
        · by_cases h3 : (es.all fun e => isNonArrayObjectV e.2) = true
          · simp [h1, h2, h3, show 2 ≤ es.length from by omega, hany]
          · simp [h1, h2, h3, show 2 ≤ es.length from by omega]
        · simp [h1, h2, show 2 ≤ es.length from by omega]
    | null => rfl
    | undef => rfl
    | func => rfl
    | bool b => rfl
    | num n => rfl
    | str s => rfl
    | arr xs => rfl
  · intro es k w hmem hk
    have hall : (es.all fun e => isDateKey e.1) = false := by
      rw [List.all_eq_false]
      exact ⟨(k, w), hmem, by simp [hk]⟩
    unfold isFinancialTimeSeries
    by_cases h1 : es.length < 2
    · simp [h1]
    · simp [h1, hall]

/-- Witness for C2's amended theorem: a concrete object with a single
non-date key is rejected. -/
theorem c2_witness :
    isFinancialTimeSeries
      (.obj [("portfolio", .obj [("open", .num 1)]),
             ("2025-01-01", .obj [("close", .num 2)])]) = false :=
  c2_financial_series_detector.2
    [("portfolio", .obj [("open", .num 1)]), ("2025-01-01", .obj [("close", .num 2)])]
    "portfolio" (.obj [("open", .num 1)]) (by simp) (by decide)

/-! ## `FieldDiscoveryService.getType` -/

/-- The `FieldType` union of `lib/types/field.ts`
(`string|number|boolean|null|date|object|array`), extended by the two extra
`typeof` outcomes (`undefined`, `function`) that the source's unchecked cast
`jsType as FieldType` can leak through. -/
inductive FieldType where
  | string : FieldType
  | number : FieldType
  | boolean : FieldType
  | null : FieldType
  | date : FieldType
  | object : FieldType
  | array : FieldType
  | undefined : FieldType
  | function : FieldType
  deriving DecidableEq

/-- `FieldDiscoveryService.getType`: `null`, arrays and objects map to their
own tags; strings are classified by the ordered cascade (boolean literal,
then the date battery, then numeric string, else string); native numbers and
booleans map directly. -/
def getType (v : JsValue) : FieldType :=
  match v with
  | .null => .null
  | .arr _ => .array
  | .obj _ => .object
  | .str s =>
    let trimmed := jsTrim s
    if jsToLower trimmed == "true" || jsToLower trimmed == "false" then .boolean
    else if isDateString trimmed then .date
    else if trimmed != "" && jsNumberValidL trimmed.toList then .number
    else .string
  | .num _ => .number
  | .bool _ => .boolean
  | .undef => .undefined
  | .func => .function

/-! ### All-digit strings through the cascade -/

theorem not_wsc_of_digit (c : Char) (h : isDigitC c = true) : isWSC c = false := by
  simp only [isDigitC, Bool.and_eq_true, decide_eq_true_eq] at h
  simp only [isWSC, Bool.or_eq_false_iff, decide_eq_false_iff_not]
  refine ⟨⟨⟨⟨⟨?_, ?_⟩, ?_⟩, ?_⟩, ?_⟩, ?_⟩ <;>
    (intro he; subst he; revert h; decide)

theorem dropWhile_isWSC_of_digits (l : List Char) (h : l.all isDigitC = true) :
    l.dropWhile isWSC = l := by
  cases l with
  | nil => rfl
  | cons c cs =>
    simp only [List.all_cons, Bool.and_eq_true] at h
    simp [List.dropWhile, not_wsc_of_digit c h.1]

theorem trimL_all_digit (l : List Char) (h : l.all isDigitC = true) : trimL l = l := by
  unfold trimL
  rw [dropWhile_isWSC_of_digits l h]
  rw [dropWhile_isWSC_of_digits l.reverse (by simpa using h)]
  exact List.reverse_reverse l

theorem takeWhile_all_eq_self {p : Char → Bool} :
    ∀ l : List Char, l.all p = true → l.takeWhile p = l := by
  intro l
  induction l with
  | nil => intro _; rfl
  | cons c cs ih =>
    intro h
    simp only [List.all_cons, Bool.and_eq_true] at h
    simp [List.takeWhile, h.1, ih h.2]

theorem dropWhile_all_eq_nil {p : Char → Bool} :
    ∀ l : List Char, l.all p = true → l.dropWhile p = [] := by
  intro l
  induction l with
  | nil => intro _; rfl
  | cons c cs ih =>
    intro h
    simp only [List.all_cons, Bool.and_eq_true] at h
    simp [List.dropWhile, h.1, ih h.2]

/-- A pattern element that can possibly accept a digit. -/
def patDigitCompatible : Pat → Bool
  | .d => true
  | .lit c => isDigitC c
  | .cls cs => cs.any isDigitC

theorem patMatch_false_of_digits :
    ∀ (pats : List Pat) (l : List Char), l.all isDigitC = true →
      (∃ p ∈ pats, patDigitCompatible p = false) → patMatch pats l = false := by
  intro pats
  induction pats with
  | nil => intro l _ h; simp at h
  | cons p ps ih =>
    intro l hl hex
    cases l with
    | nil => rfl
    | cons c cs =>
      simp only [List.all_cons, Bool.and_eq_true] at hl
      rcases hex with ⟨q, hq, hqc⟩
      rcases List.mem_cons.mp hq with h1 | h2
      · subst h1
        have hone : patOne q c = false := by
          cases q with
          | d => simp [patDigitCompatible] at hqc
          | lit x =>
            simp only [patDigitCompatible] at hqc
            cases hcx : (c == x) with
            | false => simp [patOne, hcx]
            | true =>
              have hce : c = x := eq_of_beq hcx
              subst hce
              rw [hl.1] at hqc
              cases hqc
          | cls xs =>
            simp only [patDigitCompatible] at hqc
            simp only [patOne, List.contains_eq_any_beq]
            cases hcc : xs.any (fun x => c == x) with
            | false => rfl
            | true =>
              obtain ⟨x, hx, hxc⟩ := List.any_eq_true.mp hcc
              have hxe : c = x := eq_of_beq (by simpa using hxc)
              have : xs.any isDigitC = true :=
                List.any_eq_true.mpr ⟨x, hx, by rw [← hxe]; simp [hl.1]⟩
              rw [this] at hqc
              cases hqc
        simp [patMatch, hone]
      · simp only [patMatch, Bool.and_eq_false_iff]
        exact Or.inr (ih cs hl.2 ⟨q, h2, hqc⟩)

theorem patOne_false_of_digit_incompatible (q : Pat) (c : Char)
    (hc : isDigitC c = true) (hqc : patDigitCompatible q = false) :
    patOne q c = false := by
  cases q with
  | d => simp [patDigitCompatible] at hqc
  | lit x =>
    simp only [patDigitCompatible] at hqc
    cases hcx : (c == x) with
    | false => simp [patOne, hcx]
    | true =>
      have hce : c = x := eq_of_beq hcx
      subst hce
      rw [hc] at hqc
      cases hqc
  | cls xs =>
    simp only [patDigitCompatible] at hqc
    simp only [patOne, List.contains_eq_any_beq]
    cases hcc : xs.any (fun x => c == x) with
    | false => rfl
    | true =>
      obtain ⟨x, hx, hxc⟩ := List.any_eq_true.mp hcc
      have hxe : c = x := eq_of_beq (by simpa using hxc)
      have : xs.any isDigitC = true :=
        List.any_eq_true.mpr ⟨x, hx, by rw [← hxe]; simp [hc]⟩
      rw [this] at hqc
      cases hqc

theorem patInitSeg_false_of_digits :
    ∀ (pats : List Pat) (l : List Char), l.all isDigitC = true →
      (∃ p ∈ pats, patDigitCompatible p = false) → patInitSeg pats l = false := by
  intro pats
  induction pats with
  | nil => intro l _ h; simp at h
  | cons p ps ih =>
    intro l hl hex
    cases l with
    | nil => rfl
    | cons c cs =>
      simp only [List.all_cons, Bool.and_eq_true] at hl
      rcases hex with ⟨q, hq, hqc⟩
      rcases List.mem_cons.mp hq with h1 | h2
      · subst h1
        simp [patInitSeg, patOne_false_of_digit_incompatible q c hl.1 hqc]
      · simp only [patInitSeg, Bool.and_eq_false_iff]
        exact Or.inr (ih cs hl.2 ⟨q, h2, hqc⟩)

/-- On an all-digit string, the whole date battery collapses to the bare
10-to-13-digit timestamp test. -/
theorem isDateString_all_digit (l : List Char) (h : l.all isDigitC = true) :
    isDateString (String.mk l) = decide (10 ≤ l.length ∧ l.length ≤ 13) := by
  have hiso : patMatch isoDatePat l = false :=
    patMatch_false_of_digits _ l h ⟨.lit '-', by simp [isoDatePat], by decide⟩
  have hisodt : patInitSeg isoDateTimePat l = false :=
    patInitSeg_false_of_digits _ l h ⟨.lit '-', by simp [isoDateTimePat], by decide⟩
  have hus : usDateMatch l = false := by
    unfold usDateMatch
    rw [patMatch_false_of_digits _ l h ⟨.cls ['/', '-'], by simp [usDatePat], by decide⟩,
      patMatch_false_of_digits _ l h ⟨.cls ['/', '-'], by simp [usDatePat], by decide⟩,
      patMatch_false_of_digits _ l h ⟨.cls ['/', '-'], by simp [usDatePat], by decide⟩,
      patMatch_false_of_digits _ l h ⟨.cls ['/', '-'], by simp [usDatePat], by decide⟩]
    rfl
  have hslash : patMatch slashDatePat l = false :=
    patMatch_false_of_digits _ l h ⟨.lit '/', by simp [slashDatePat], by decide⟩
  have heu : patMatch euDatePat l = false :=
    patMatch_false_of_digits _ l h ⟨.lit '-', by simp [euDatePat], by decide⟩
  unfold isDateString
  simp only [show (String.mk l).toList = l from rfl, hiso, hisodt, hus, hslash, heu,
    Bool.false_eq_true, if_false, digits1013, h, Bool.true_and]
  by_cases h10 : 10 ≤ l.length
  · by_cases h13 : l.length ≤ 13 <;> simp [h10, h13]
  · simp [h10]

theorem toLowerL_all_digit (l : List Char) (h : l.all isDigitC = true) :
    toLowerL l = l := by
  unfold toLowerL
  induction l with
  | nil => rfl
  | cons c cs ih =>
    simp only [List.all_cons, Bool.and_eq_true] at h
    have hc : c.toLower = c := by
      have := h.1
      simp only [isDigitC, Bool.and_eq_true, decide_eq_true_eq] at this
      simp only [Char.toLower]
      rw [if_neg (by omega)]
    simp [hc, ih h.2]

/-- An all-digit string is never a boolean literal. -/
theorem all_digit_ne_word (l w : List Char) (hl : l.all isDigitC = true)
    (c : Char) (hc : c ∈ w) (hcd : isDigitC c = false) :
    (String.mk (toLowerL l) == String.mk w) = false := by
  rw [toLowerL_all_digit l hl]
  cases hb : (String.mk l == String.mk w) with
  | false => rfl
  | true =>
    exfalso
    have he : String.mk l = String.mk w := eq_of_beq hb
    have hlw : l = w := by injection he
    subst hlw
    have := List.all_eq_true.mp hl c hc
    rw [hcd] at this
    cases this

theorem decNumberValid_all_digit (l : List Char) (h : l.all isDigitC = true)
    (hne : l ≠ []) : decNumberValid l = true := by
  unfold decNumberValid
  rw [takeWhile_all_eq_self l h, dropWhile_all_eq_nil l h]
  simpa using hne

theorem jsNumberValidL_all_digit (l : List Char) (h : l.all isDigitC = true)
    (hne : l ≠ []) : jsNumberValidL l = true := by
  have hdec := decNumberValid_all_digit l h hne
  unfold jsNumberValidL
  rw [trimL_all_digit l h]
  cases l with
  | nil => exact absurd rfl hne
  | cons c cs =>
    simp only [List.all_cons, Bool.and_eq_true] at h
    obtain ⟨hc, hcs⟩ := h
    have hplus : ¬(c = '+' || c = '-') = true := by
      simp only [Bool.or_eq_true, decide_eq_true_eq]
      rintro (he | he) <;> (subst he; revert hc; decide)
    simp only [hplus, if_neg, if_false, Bool.false_eq_true]
    by_cases h0 : c = '0'
    · rw [if_pos h0]
      cases cs with
      | nil => rfl
      | cons x r2 =>
        simp only [List.all_cons, Bool.and_eq_true] at hcs
        obtain ⟨hx, _⟩ := hcs
        have hxh : ¬(x = 'x' || x = 'X') = true := by
          simp only [Bool.or_eq_true, decide_eq_true_eq]
          rintro (he | he) <;> (subst he; revert hx; decide)
        have hxo : ¬(x = 'o' || x = 'O') = true := by
          simp only [Bool.or_eq_true, decide_eq_true_eq]
          rintro (he | he) <;> (subst he; revert hx; decide)
        have hxb : ¬(x = 'b' || x = 'B') = true := by
          simp only [Bool.or_eq_true, decide_eq_true_eq]
          rintro (he | he) <;> (subst he; revert hx; decide)
        simp only [hxh, hxo, hxb, if_neg, if_false, Bool.false_eq_true]
        simp [hdec]
    · rw [if_neg h0]
      simp [hdec]

/-- Counterexample to claim C9 as stated.  The bare 11-digit string
`"12345678901"` is matched by the source's timestamp regex (which accepts 10
TO 13 digits) and so is classified `date`, although its length is neither 10
nor 13 as the claim requires. -/
theorem c9_counterexample :
    getType (.str "12345678901") = FieldType.date
    ∧ ¬("12345678901".toList.length = 10 ∨ "12345678901".toList.length = 13) := by
  constructor
  · decide
  · decide

/-- Claim C9, amended.  `getType` classifies a string by trying, in order:
case-insensitive boolean literal, then the date-pattern battery (with parse
check), then full numeric parse of the trimmed string, else string; and a
bare all-digit string is classified `date` exactly when its length is
between 10 and 13 inclusive. -/
theorem c9_get_type (s : String) :
    getType (.str s)
      = (let t := jsTrim s
         if jsToLower t == "true" || jsToLower t == "false" then FieldType.boolean
         else if isDateString t then FieldType.date
         else if t != "" && jsNumberValidL t.toList then FieldType.number
         else FieldType.string)
    ∧ (s.toList.all isDigitC = true → s.toList ≠ [] →
        (getType (.str s) = FieldType.date
          ↔ 10 ≤ s.toList.length ∧ s.toList.length ≤ 13)) := by
  constructor
  · rfl
  · intro hdig hne
    have htrim : jsTrim s = s := by
      unfold jsTrim
      rw [trimL_all_digit _ hdig]
      rfl
    have htrue : (jsToLower s == "true") = false :=
      all_digit_ne_word s.toList "true".toList hdig 't' (by decide) (by decide)
    have hfalse : (jsToLower s == "false") = false :=
      all_digit_ne_word s.toList "false".toList hdig 'f' (by decide) (by decide)
    have hdate : isDateString s = decide (10 ≤ s.toList.length ∧ s.toList.length ≤ 13) :=
      isDateString_all_digit s.toList hdig
    have hnum : jsNumberValidL s.toList = true := jsNumberValidL_all_digit s.toList hdig hne
    have hnes : (s != "") = true := by
      cases hb : (s == "") with
      | false => simp [bne, hb]
      | true =>
        exfalso
        have : s = "" := eq_of_beq hb
        exact hne (by rw [this]; rfl)
    show (let trimmed := jsTrim s
      if jsToLower trimmed == "true" || jsToLower trimmed == "false" then FieldType.boolean
      else if isDateString trimmed then FieldType.date
      else if trimmed != "" && jsNumberValidL trimmed.toList then FieldType.number
      else FieldType.string) = FieldType.date ↔ _
    simp only [htrim, htrue, hfalse, Bool.or_self, Bool.false_eq_true, if_false, hdate]
    by_cases hr : 10 ≤ s.toList.length ∧ s.toList.length ≤ 13
    · rw [if_pos (decide_eq_true hr)]
      exact ⟨fun _ => hr, fun _ => rfl⟩
    · rw [if_neg (fun hcon => hr (of_decide_eq_true hcon))]
      have hcond : (s != "" && jsNumberValidL s.toList) = true := by
        rw [hnes, hnum]
        rfl
      rw [if_pos hcond]
      exact ⟨fun h => absurd h (by decide), fun h => absurd h hr⟩

/-- Witness for C9: the concrete 10-digit string `"1234567890"` is
classified `date`. -/
theorem c9_witness : getType (.str "1234567890") = FieldType.date :=
  ((c9_get_type "1234567890").2 (by decide) (by decide)).mpr (by decide)

/-! ## `normalizeFinancialTimeSeries` -/

/-- Model of `new Date(v).getTime()` for the values a record field can hold:
a number is the epoch-milliseconds value itself (within the representable
range), a string goes through the date parser, booleans and `null` coerce
through `ToNumber`, arrays through their joined string form, and
`undefined`, plain objects and functions give `Invalid Date` (`none`). -/
def jsNewDate : JsValue → Option Int
  | .num n => if -8640000000000000 ≤ n ∧ n ≤ 8640000000000000 then some n else none
  | .str s => jsDateParseMs s
  | .bool b => some (if b then 1 else 0)
  | .null => some 0
  | .undef => none
  | .arr xs => jsDateParseMs (jsArrJoin xs)
  | .obj _ => none
  | .func => none

/-- Three-way character-list comparison. -/
def cmpChars : List Char → List Char → Int
  | [], [] => 0
  | [], _ :: _ => -1
  | _ :: _, [] => 1
  | a :: as, b :: bs => if a < b then -1 else if b < a then 1 else cmpChars as bs

/-- Model of `String.prototype.localeCompare`: a three-way total comparison
of the two strings (modelled on code points; the actual locale collation
differs in ordering details but is equally a total antisymmetric
comparison, which is all the theorems below use). -/
def localeCompare (a b : String) : Int := cmpChars a.toList b.toList

theorem cmpChars_antisym : ∀ a b : List Char, cmpChars a b = -cmpChars b a := by
  intro a
  induction a with
  | nil => intro b; cases b <;> simp [cmpChars]
  | cons x xs ih =>
    intro b
    cases b with
    | nil => simp [cmpChars]
    | cons y ys =>
      by_cases hxy : x < y
      · have hyx : ¬y < x := lt_asymm hxy
        simp [cmpChars, hxy, hyx]
      · by_cases hyx : y < x
        · simp [cmpChars, hxy, hyx]
        · simp [cmpChars, hxy, hyx, ih ys]

/-- The integer-timestamp / lexicographic fallback tiers of the sort
comparator in `normalizeFinancialTimeSeries`. -/
def tsTier2 (av bv : JsValue) : Int :=
  match jsParseInt (jsToString av), jsParseInt (jsToString bv) with
  | some ta, some tb => ta - tb
  | _, _ => localeCompare (jsToString av) (jsToString bv)

/-- `a[dateKey]` (present in every record built by the normalizer, but
modelled totally: an absent key reads as `undefined`). -/
def jsGetField (r : RecordJs) (k : String) : JsValue := ((lookupA r k).getD .undef)

/-- The sort comparator of `normalizeFinancialTimeSeries`: date-parse
comparison when both values parse, else integer `parseInt` comparison when
both parse, else string comparison — in this exact order. -/
def tsCompare (dk : String) (a b : RecordJs) : Int :=
  match jsNewDate (jsGetField a dk), jsNewDate (jsGetField b dk) with
  | some da, some db => da - db
  | _, _ => tsTier2 (jsGetField a dk) (jsGetField b dk)

theorem tsTier2_antisym (av bv : JsValue) : tsTier2 av bv = -tsTier2 bv av := by
  unfold tsTier2
  generalize jsToString av = sa
  generalize jsToString bv = sb
  generalize jsParseInt sa = oa
  generalize jsParseInt sb = ob
  have hlc : localeCompare sa sb = -localeCompare sb sa := cmpChars_antisym _ _
  rcases oa with _ | ta <;> rcases ob with _ | tb
  · exact hlc
  · exact hlc
  · exact hlc
  · show ta - tb = -(tb - ta)
    omega

theorem tsCompare_antisym (dk : String) (a b : RecordJs) :
    tsCompare dk a b = -tsCompare dk b a := by
  unfold tsCompare
  have ht2 : tsTier2 (jsGetField a dk) (jsGetField b dk)
      = -tsTier2 (jsGetField b dk) (jsGetField a dk) := tsTier2_antisym _ _
  generalize hga : jsGetField a dk = ga at *
  generalize hgb : jsGetField b dk = gb at *
  generalize jsNewDate ga = oa
  generalize jsNewDate gb = ob
  rcases oa with _ | da <;> rcases ob with _ | db
  · exact ht2
  · exact ht2
  · exact ht2
  · show da - db = -(db - da)
    omega

/-- The comparator-driven boolean relation used by the sort ("keep `a`
before `b`"). -/
def tsLe (dk : String) (a b : RecordJs) : Bool := decide (tsCompare dk a b ≤ 0)

theorem tsLe_total (dk : String) (a b : RecordJs) :
    tsLe dk a b = true ∨ tsLe dk b a = true := by
  unfold tsLe
  have h := tsCompare_antisym dk a b
  by_cases hab : tsCompare dk a b ≤ 0
  · exact Or.inl (decide_eq_true hab)
  · exact Or.inr (decide_eq_true (by omega))

/-! ### A stable merge sort (model of `Array.prototype.sort`) -/

/-- Merge two runs, preferring the left element when the comparator says it
may come first (a stable merge). -/
def mergeRuns {α : Type} (r : α → α → Bool) : List α → List α → List α
  | [], ys => ys
  | x :: xs, [] => x :: xs
  | x :: xs, y :: ys =>
    if r x y then x :: mergeRuns r xs (y :: ys) else y :: mergeRuns r (x :: xs) ys
termination_by xs ys => xs.length + ys.length

/-- Model of `Array.prototype.sort(comparator)`: a stable merge sort, as
required of JavaScript's sort by ECMA-262. -/
def mergeSortBy {α : Type} (r : α → α → Bool) (l : List α) : List α :=
  if h : l.length ≤ 1 then l
  else
    mergeRuns r (mergeSortBy r (l.take (l.length / 2))) (mergeSortBy r (l.drop (l.length / 2)))
termination_by l.length
decreasing_by
  all_goals simp only [List.length_take, List.length_drop]
  all_goals omega

theorem mergeRuns_perm {α : Type} (r : α → α → Bool) :
    ∀ (n : Nat) (xs ys : List α), xs.length + ys.length ≤ n →
      (mergeRuns r xs ys).Perm (xs ++ ys) := by
  intro n
  induction n with
  | zero =>
    intro xs ys h
    cases xs with
    | nil => simpa [mergeRuns] using List.Perm.refl ys
    | cons x xs' => simp at h
  | succ n ih =>
    intro xs ys h
    cases xs with
    | nil => simpa [mergeRuns] using List.Perm.refl ys
    | cons x xs' =>
      cases ys with
      | nil => simpa [mergeRuns] using List.Perm.refl (x :: xs')
      | cons y ys' =>
        simp only [List.length_cons] at h
        by_cases hr : r x y = true
        · simp only [mergeRuns, hr, if_true, List.cons_append]
          exact (ih xs' (y :: ys') (by simp; omega)).cons x
        · simp only [mergeRuns, hr, if_false, Bool.false_eq_true]
          have hperm := (ih (x :: xs') ys' (by simp; omega)).cons y
          exact hperm.trans (List.perm_middle.symm)

theorem mergeRuns_head {α : Type} (r : α → α → Bool) (xs ys : List α) (b : α)
    (h : (mergeRuns r xs ys).head? = some b) :
    xs.head? = some b ∨ ys.head? = some b := by
  cases xs with
  | nil => right; simpa [mergeRuns] using h
  | cons x xs' =>
    cases ys with
    | nil => left; simpa [mergeRuns] using h
    | cons y ys' =>
      by_cases hr : r x y = true
      · simp only [mergeRuns, hr, if_true, List.head?_cons] at h
        left; simpa using h
      · simp only [mergeRuns, hr, if_false, Bool.false_eq_true, List.head?_cons] at h
        right; simpa using h

theorem mergeRuns_chain {α : Type} (r : α → α → Bool)
    (htot : ∀ a b, r a b = true ∨ r b a = true) :
    ∀ (n : Nat) (xs ys : List α), xs.length + ys.length ≤ n →
      List.Chain' (fun a b => r a b = true) xs →
      List.Chain' (fun a b => r a b = true) ys →
      List.Chain' (fun a b => r a b = true) (mergeRuns r xs ys) := by
  intro n
  induction n with
  | zero =>
    intro xs ys h hxs hys
    cases xs with
    | nil => simpa [mergeRuns] using hys
    | cons x xs' => simp at h
  | succ n ih =>
    intro xs ys h hxs hys
    cases xs with
    | nil => simpa [mergeRuns] using hys
    | cons x xs' =>
      cases ys with
      | nil => simpa [mergeRuns] using hxs
      | cons y ys' =>
        simp only [List.length_cons] at h
        rcases List.chain'_cons'.mp hxs with ⟨hxhead, hxs'⟩
        rcases List.chain'_cons'.mp hys with ⟨hyhead, hys'⟩
        by_cases hr : r x y = true
        · simp only [mergeRuns, hr, if_true]
          refine List.chain'_cons'.mpr ⟨?_, ?_⟩
          · intro b hb
            rcases mergeRuns_head r xs' (y :: ys') b hb with h1 | h1
            · exact hxhead b h1
            · simp only [List.head?_cons, Option.some.injEq] at h1
              rw [← h1]; exact hr
          · exact ih xs' (y :: ys') (by simp; omega) hxs' hys
        · simp only [mergeRuns, hr, if_false, Bool.false_eq_true]
          have hyx : r y x = true := (htot x y).resolve_left hr
          refine List.chain'_cons'.mpr ⟨?_, ?_⟩
          · intro b hb
            rcases mergeRuns_head r (x :: xs') ys' b hb with h1 | h1
            · simp only [List.head?_cons, Option.some.injEq] at h1
              rw [← h1]; exact hyx
            · exact hyhead b h1
          · exact ih (x :: xs') ys' (by simp; omega) hxs hys'

theorem mergeSortBy_perm {α : Type} (r : α → α → Bool) :
    ∀ (n : Nat) (l : List α), l.length ≤ n → (mergeSortBy r l).Perm l := by
  intro n
  induction n with
  | zero =>
    intro l h
    have : l = [] := List.length_eq_zero.mp (by omega)
    subst this
    simp [mergeSortBy]
  | succ n ih =>
    intro l h
    by_cases h1 : l.length ≤ 1
    · simp [mergeSortBy, h1]
    · rw [mergeSortBy, dif_neg h1]
      have htake : (l.take (l.length / 2)).length ≤ n := by
        simp only [List.length_take]; omega
      have hdrop : (l.drop (l.length / 2)).length ≤ n := by
        simp only [List.length_drop]; omega
      have hmerge := mergeRuns_perm r
        ((mergeSortBy r (l.take (l.length / 2))).length
          + (mergeSortBy r (l.drop (l.length / 2))).length)
        (mergeSortBy r (l.take (l.length / 2)))
        (mergeSortBy r (l.drop (l.length / 2))) le_rfl
      refine hmerge.trans ?_
      have hperm := (ih _ htake).append (ih _ hdrop)
      exact hperm.trans (by rw [List.take_append_drop])

theorem mergeSortBy_chain {α : Type} (r : α → α → Bool)
    (htot : ∀ a b, r a b = true ∨ r b a = true) :
    ∀ (n : Nat) (l : List α), l.length ≤ n →
      List.Chain' (fun a b => r a b = true) (mergeSortBy r l) := by
  intro n
  induction n with
  | zero =>
    intro l h
    have : l = [] := List.length_eq_zero.mp (by omega)
    subst this
    simp [mergeSortBy]
  | succ n ih =>
    intro l h
    by_cases h1 : l.length ≤ 1
    · rw [mergeSortBy, dif_pos h1]
      cases l with
      | nil => exact List.chain'_nil
      | cons x xs =>
        cases xs with
        | nil => exact List.chain'_singleton x
        | cons y ys => simp at h1
    · rw [mergeSortBy, dif_neg h1]
      have htake : (l.take (l.length / 2)).length ≤ n := by
        simp only [List.length_take]; omega
      have hdrop : (l.drop (l.length / 2)).length ≤ n := by
        simp only [List.length_drop]; omega
      exact mergeRuns_chain r htot _ _ _ le_rfl (ih _ htake) (ih _ hdrop)

/-- `normalizeFinancialTimeSeries` from `dataTransform`: one record per
top-level key — the object literal `{[dateKey]: timestamp, ...values}`, i.e.
the date field first and then the value object's own entries (which may
overwrite it) — then sorted with the three-tier comparator. -/
def normalizeFinancialTimeSeries (series : List (String × RecordJs)) (dateKey : String) :
    List RecordJs :=
  let records := series.map (fun e => assignAll [(dateKey, JsValue.str e.1)] e.2)
  mergeSortBy (tsLe dateKey) records

/-- Claim C3.  `normalizeFinancialTimeSeries` returns exactly one record per
top-level key of the series — each the merge of `{dateKey: key}` with that
key's value object's own entries (a permutation of the mapped list) — and
every adjacent pair of output records is non-decreasing under the three-tier
comparator `tsCompare` (date-parse, then integer-timestamp, then
lexicographic, tried in that order). -/
theorem c3_normalize_sorted (series : List (String × RecordJs)) (dk : String) :
    (normalizeFinancialTimeSeries series dk).Perm
        (series.map (fun e => assignAll [(dk, JsValue.str e.1)] e.2))
    ∧ List.Chain' (fun a b => tsCompare dk a b ≤ 0)
        (normalizeFinancialTimeSeries series dk) := by
  constructor
  · exact mergeSortBy_perm (tsLe dk) _ _ le_rfl
  · have hchain := mergeSortBy_chain (tsLe dk) (tsLe_total dk) _
      (series.map (fun e => assignAll [(dk, JsValue.str e.1)] e.2)) le_rfl
    exact hchain.imp (fun a b hab => of_decide_eq_true hab)

/-! ## `buildAuthHeaders` (`ApiService`) -/

/-- The `ApiAuthentication` union of `lib/types/api.ts`. -/
inductive ApiAuthentication where
  | none : ApiAuthentication
  | bearer (token : String) : ApiAuthentication
  | apiKey (headerName apiKey : String) : ApiAuthentication
  | basic (username password : String) : ApiAuthentication

/-- The base64 alphabet. -/
def b64Alphabet : List Char :=
  "ABCDEFGHIJKLMNOPQRSTUVWXYZabcdefghijklmnopqrstuvwxyz0123456789+/".toList

def b64char (n : Nat) : Char := b64Alphabet.getD n 'A'

/-- Base64 encoding of a byte list, chunked in threes with padding, using
the byte-splitting arithmetic of a typical implementation. -/
def b64encode : List Nat → List Char
  | [] => []
  | [a] => [b64char (a / 4), b64char (a % 4 * 16), '=', '=']
  | [a, b] => [b64char (a / 4), b64char (a % 4 * 16 + b / 16), b64char (b % 16 * 4), '=']
  | a :: b :: c :: rest =>
    b64char (a / 4) :: b64char (a % 4 * 16 + b / 16) :: b64char (b % 16 * 4 + c / 64)
      :: b64char (c % 64) :: b64encode rest

/-- Model of `btoa`: base64 of the string's code units (the code under
study only ever passes ASCII credential strings, for which code units and
bytes agree). -/
def btoaS (s : String) : String := String.mk (b64encode (s.toList.map Char.toNat))

/-- `ApiService.buildAuthHeaders`: bearer, api-key, basic and none/absent
configurations, as a header list. -/
def buildAuthHeaders (auth : Option ApiAuthentication) : List (String × String) :=
  match auth with
  | Option.none => []
  | some a =>
    match a with
    | .none => []
    | .bearer t => [("Authorization", "Bearer " ++ t)]
    | .apiKey hn k => [(hn, k)]
    | .basic u p => [("Authorization", "Basic " ++ btoaS (u ++ ":" ++ p))]

/-- The textbook bit-level base64 specification: each 3-byte group is read
as one 24-bit number and emitted as four 6-bit digits. -/
def b64encodeSpec : List Nat → List Char
  | [] => []
  | [a] =>
    let nn := a * 65536
    [b64char (nn / 262144), b64char (nn / 4096 % 64), '=', '=']
  | [a, b] =>
    let nn := a * 65536 + b * 256
    [b64char (nn / 262144), b64char (nn / 4096 % 64), b64char (nn / 64 % 64), '=']
  | a :: b :: c :: rest =>
    let nn := a * 65536 + b * 256 + c
    b64char (nn / 262144) :: b64char (nn / 4096 % 64) :: b64char (nn / 64 % 64)
      :: b64char (nn % 64) :: b64encodeSpec rest

theorem b64encode_eq_spec :
    ∀ bs : List Nat, (∀ x ∈ bs, x < 256) → b64encode bs = b64encodeSpec bs := by
  intro bs
  induction bs using b64encode.induct with
  | case1 => intro _; rfl
  | case2 a =>
    intro hb
    have ha : a < 256 := hb a (by simp)
    simp only [b64encode, b64encodeSpec]
    have h1 : a * 65536 / 262144 = a / 4 := by omega
    have h2 : a * 65536 / 4096 % 64 = a % 4 * 16 := by omega
    rw [h1, h2]
  | case3 a b =>
    intro hb
    have ha : a < 256 := hb a (by simp)
    have hbb : b < 256 := hb b (by simp)
    simp only [b64encode, b64encodeSpec]
    have h1 : (a * 65536 + b * 256) / 262144 = a / 4 := by omega
    have h2 : (a * 65536 + b * 256) / 4096 % 64 = a % 4 * 16 + b / 16 := by omega
    have h3 : (a * 65536 + b * 256) / 64 % 64 = b % 16 * 4 := by omega
    rw [h1, h2, h3]
  | case4 a b c rest ih =>
    intro hb
    have ha : a < 256 := hb a (by simp)
    have hbb : b < 256 := hb b (by simp)
    have hc : c < 256 := hb c (by simp)
    simp only [b64encode, b64encodeSpec]
    have h1 : (a * 65536 + b * 256 + c) / 262144 = a / 4 := by omega
    have h2 : (a * 65536 + b * 256 + c) / 4096 % 64 = a % 4 * 16 + b / 16 := by omega
    have h3 : (a * 65536 + b * 256 + c) / 64 % 64 = b % 16 * 4 + c / 64 := by omega
    have h4 : (a * 65536 + b * 256 + c) % 64 = c % 64 := by omega
    rw [h1, h2, h3, h4, ih (by intro x hx; exact hb x (by simp [hx]))]

/-- Claim C8.  `buildAuthHeaders` maps each authentication configuration to
exactly the stated headers: bearer to a single `Authorization: Bearer
<token>`, api-key to a single `<headerName>: <key>`, basic to a single
`Authorization: Basic <base64(user:pass)>` (with the base64 agreeing with
the bit-level specification on byte-valued code units), and none or an
absent configuration to no header at all. -/
theorem c8_build_auth_headers (t hn k u p : String) :
    buildAuthHeaders (some (.bearer t)) = [("Authorization", "Bearer " ++ t)]
    ∧ buildAuthHeaders (some (.apiKey hn k)) = [(hn, k)]
    ∧ buildAuthHeaders (some (.basic u p))
        = [("Authorization", "Basic " ++ btoaS (u ++ ":" ++ p))]
    ∧ buildAuthHeaders (some .none) = []
    ∧ buildAuthHeaders Option.none = []
    ∧ ((∀ x ∈ (u ++ ":" ++ p).toList.map Char.toNat, x < 256) →
        buildAuthHeaders (some (.basic u p))
          = [("Authorization", "Basic " ++ String.mk
              (b64encodeSpec ((u ++ ":" ++ p).toList.map Char.toNat)))]) := by
  refine ⟨rfl, rfl, rfl, rfl, rfl, ?_⟩
  intro hbytes
  show [("Authorization", "Basic " ++ btoaS (u ++ ":" ++ p))] = _
  rw [show btoaS (u ++ ":" ++ p)
    = String.mk (b64encode ((u ++ ":" ++ p).toList.map Char.toNat)) from rfl]
  rw [b64encode_eq_spec _ hbytes]

/-- Witness for C8 at concrete credentials: `btoa("user:pass")` is
`"dXNlcjpwYXNz"`. -/
theorem c8_witness :
    buildAuthHeaders (some (.basic "user" "pass"))
      = [("Authorization", "Basic " ++ String.mk
          (b64encodeSpec (("user" ++ ":" ++ "pass").toList.map Char.toNat)))]
    ∧ buildAuthHeaders (some (.basic "user" "pass"))
      = [("Authorization", "Basic dXNlcjpwYXNz")] := by
  constructor
  · exact (c8_build_auth_headers "t" "h" "k" "user" "pass").2.2.2.2.2 (by decide)
  · decide

/-! ## The `ApiService` runtime model

`ApiService` keeps four module-level registries: `lastRequestTime`,
`pollingIntervals`, `socketConnections` and (implicitly, on the JavaScript
heap) the socket state objects that the event-handler closures capture.
The model makes the heap explicit (`objects`, addressed by allocation
order), gives timers/sockets fresh ids from one counter, and records every
externally visible action (network request issued, callback invoked, timer
installed, reconnect scheduled) in an event trace.  Asynchronous
continuations (`.then` bodies, timer callbacks) are modelled as separate
step functions that the theorems sequence in the order the JavaScript event
loop would run them. -/

inductive SocketKind where
  | socketio : SocketKind
  | websocket : SocketKind
  deriving DecidableEq

/-- The `WidgetConfig` fields consulted by the update pipeline. -/
structure WidgetConfig where
  apiEndpoint : String
  socketUrl : Option String
  socketKind : Option SocketKind
  refreshInterval : Option Int
  financialDataPath : Option String
  authentication : Option ApiAuthentication

inductive EngineEvent where
  | networkRequest (widgetId : String) : EngineEvent
  | onUpdate (widgetId : String) : EngineEvent
  | onError (widgetId : String) (msg : String) : EngineEvent
  | socketCreated (widgetId : String) (objId : Nat) (kind : SocketKind) : EngineEvent
  | intervalSet (widgetId : String) (interval : Int) : EngineEvent
  | reconnectScheduled (widgetId : String) (delay : Int) (attemptNumber : Nat) : EngineEvent
  | socketClosed (widgetId : String) (code : Int) : EngineEvent
  deriving DecidableEq

/-- One socket state object (the record the handler closures mutate). -/
structure SocketObj where
  reconnectAttempts : Nat
  reconnectTimeoutId : Option Nat
  connected : Bool
  deriving DecidableEq

instance : Inhabited SocketObj := ⟨⟨0, Option.none, false⟩⟩

/-- A `socketConnections` map entry: which heap object and which wire
variant. -/
structure SocketConnInfo where
  objId : Nat
  kind : SocketKind
  deriving DecidableEq

structure PollingInfo where
  intervalId : Nat
  deriving DecidableEq

structure ApiState where
  lastRequestTime : List (String × Int)
  pollingIntervals : List (String × PollingInfo)
  socketConnections : List (String × SocketConnInfo)
  objects : List (Nat × SocketObj)
  pendingReconnects : List (Nat × String × Nat)
  nextId : Nat
  trace : List EngineEvent

def emptyState : ApiState := ⟨[], [], [], [], [], 0, []⟩

def emit (s : ApiState) (e : EngineEvent) : ApiState := { s with trace := s.trace ++ [e] }

/-- Remove a key (`Map.delete`). -/
def removeKeyA {α : Type} (m : List (String × α)) (k : String) : List (String × α) :=
  m.filter (fun e => !(e.1 = k))

def lookupObjL (m : List (Nat × SocketObj)) (oid : Nat) : Option SocketObj :=
  (m.find? (fun e => e.1 = oid)).map (·.2)

/-- In-place mutation of one heap object. -/
def setObjN (m : List (Nat × SocketObj)) (k : Nat) (f : SocketObj → SocketObj) :
    List (Nat × SocketObj) :=
  m.map (fun e => if e.1 = k then (e.1, f e.2) else e)

def countNetwork (tr : List EngineEvent) : Nat :=
  (tr.filter fun e =>
    match e with
    | .networkRequest _ => true
    | _ => false).length

/-- `config.refreshInterval && config.refreshInterval > 0`. -/
def refreshPos (cfg : WidgetConfig) : Bool :=
  match cfg.refreshInterval with
  | some r => decide (0 < r)
  | Option.none => false

/-- JavaScript truthiness of an optional string (`undefined` and `""` are
falsy). -/
def jsTruthyOptStr (o : Option String) : Bool :=
  match o with
  | some s => decide (s ≠ "")
  | Option.none => false

/-! ### The rate-limit gate of `fetchWidgetData` -/

inductive FetchGate where
  | rateLimited (msg : String) : FetchGate
  | allowed : FetchGate
  deriving DecidableEq

/-- The rate-limit error string built by `fetchWidgetData`
(`Math.ceil(waitTime / 1000)` seconds). -/
def rlMsg (wait : Int) : String :=
  "Rate limit: Please wait " ++ toString ((wait + 999) / 1000) ++ "s before next request"

/-- The synchronous pre-flight of `ApiService.fetchWidgetData`: if the last
request for this widget id is less than `MIN_REQUEST_INTERVAL` (1000 ms) old,
return the rate-limit failure immediately — without touching the stored
timestamp and without a network request; otherwise store `now` as the last
request time and issue the HTTP request (recorded as a trace event; its
completion is delivered separately). -/
def fetchWidgetDataGate (s : ApiState) (widgetId : String) (now : Int) :
    FetchGate × ApiState :=
  let lastRequest := lookupA s.lastRequestTime widgetId
  let proceed : FetchGate × ApiState :=
    (.allowed,
      { s with lastRequestTime := setKeyA s.lastRequestTime widgetId now,
               trace := s.trace ++ [.networkRequest widgetId] })
  match lastRequest with
  | some t =>
    if t ≠ 0 ∧ now - t < 1000 then
      (.rateLimited (rlMsg (1000 - (now - t))), s)
    else proceed
  | Option.none => proceed

/-! ### Polling (`startPolling`) -/

def isPollingM (s : ApiState) (id : String) : Bool := (lookupA s.pollingIntervals id).isSome

/-- `ApiService.startPolling`: a no-op when already polling; otherwise an
immediate fetch unless `skipInitialFetch`, then an interval timer if and
only if `refreshInterval` is positive. -/
def startPollingM (s : ApiState) (id : String) (cfg : WidgetConfig)
    (skipInitialFetch : Bool) (now : Int) : ApiState :=
  if isPollingM s id then s
  else
    let s1 := if skipInitialFetch then s else (fetchWidgetDataGate s id now).2
    if refreshPos cfg then
      { s1 with pollingIntervals := setKeyA s1.pollingIntervals id ⟨s1.nextId⟩,
                nextId := s1.nextId + 1,
                trace := s1.trace ++ [.intervalSet id (cfg.refreshInterval.getD 0)] }
    else s1

/-! ### Sockets (`startSocket` and the raw-WebSocket close path) -/

/-- `ApiService.shouldUseSocketIO`: an explicit config override wins;
otherwise anything that does not start with a WebSocket scheme is taken to
be Socket.IO. -/
def shouldUseSocketIO (cfg : WidgetConfig) : Bool :=
  match cfg.socketKind with
  | some t => t == .socketio
  | Option.none =>
    let url := cfg.socketUrl.getD ""
    !(jsStartsWith url "ws://" || jsStartsWith url "wss://")

/-- `ApiService.isSocketConnected`: an entry must exist and its underlying
socket must actually be open/connected. -/
def isSocketConnectedM (s : ApiState) (id : String) : Bool :=
  match lookupA s.socketConnections id with
  | some info => ((lookupObjL s.objects info.objId).getD default).connected
  | Option.none => false

/-- `ApiService.startWebSocket`: allocate a fresh socket object (in the
CONNECTING state, reconnect counter 0) and store it in the connections
map. -/
def startWebSocketM (s : ApiState) (id : String) : ApiState :=
  let oid := s.nextId
  { s with objects := (oid, ⟨0, Option.none, false⟩) :: s.objects,
           socketConnections := setKeyA s.socketConnections id ⟨oid, .websocket⟩,
           nextId := s.nextId + 1,
           trace := s.trace ++ [.socketCreated id oid .websocket] }

/-- `ApiService.startSocketIO`: allocate the Socket.IO client and store it. -/
def startSocketIOM (s : ApiState) (id : String) : ApiState :=
  let oid := s.nextId
  { s with objects := (oid, ⟨0, Option.none, false⟩) :: s.objects,
           socketConnections := setKeyA s.socketConnections id ⟨oid, .socketio⟩,
           nextId := s.nextId + 1,
           trace := s.trace ++ [.socketCreated id oid .socketio] }

/-- `ApiService.startSocket`: a no-op when a connected socket exists,
an error when no socket URL is configured, else pick the wire variant. -/
def startSocketM (s : ApiState) (id : String) (cfg : WidgetConfig) : ApiState :=
  if isSocketConnectedM s id then s
  else if !jsTruthyOptStr cfg.socketUrl then emit s (.onError id "Socket URL not configured")
  else if shouldUseSocketIO cfg then startSocketIOM s id
  else startWebSocketM s id

/-- `ApiService.scheduleWebSocketReconnect`: compute the exponential delay
from the attempt number, install the timeout, then try to record the timer
id on the current map entry — which the `onclose` handler has already
deleted, so the `if (socketState)` write is skipped. -/
def scheduleWebSocketReconnectM (s : ApiState) (id : String) (attemptNumber : Nat) :
    ApiState :=
  let delay : Int := 2000 * 2 ^ attemptNumber
  let timerId := s.nextId
  let s1 := { s with nextId := s.nextId + 1,
                     pendingReconnects := s.pendingReconnects ++ [(timerId, id, attemptNumber)],
                     trace := s.trace ++ [.reconnectScheduled id delay attemptNumber] }
  match lookupA s1.socketConnections id with
  | some info =>
    let objs := setObjN s1.objects info.objId
      (fun o => { o with reconnectTimeoutId := some timerId })
    { s1 with objects := objs }
  | Option.none => s1

/-- The raw WebSocket `onclose` handler: delete the map entry, then — for an
abnormal close below the 5-attempt ceiling — schedule a reconnect with the
closure's current attempt counter; at or above the ceiling surface the
terminal error and fall back to polling when `refreshInterval` is positive.
`closureObjId` is the socket state object captured by this handler's
closure. -/
def wsOnCloseM (s : ApiState) (id : String) (cfg : WidgetConfig)
    (closureObjId : Nat) (code : Int) (now : Int) : ApiState :=
  let s0 := emit s (.socketClosed id code)
  let s1 := { s0 with socketConnections := removeKeyA s0.socketConnections id }
  let attempts := ((lookupObjL s1.objects closureObjId).getD default).reconnectAttempts
  if code ≠ 1000 ∧ attempts < 5 then
    scheduleWebSocketReconnectM s1 id attempts
  else if 5 ≤ attempts then
    let s2 := emit s1 (.onError id "Max reconnection attempts reached. Falling back to polling.")
    if refreshPos cfg then startPollingM s2 id cfg false now else s2
  else s1

/-- The reconnect timer callback: bump the attempt counter on the CURRENT
map entry if one exists (it does not — `onclose` deleted it), then start a
fresh WebSocket, whose state object is created with counter 0. -/
def wsReconnectFireM (s : ApiState) (id : String) (attemptNumber : Nat) : ApiState :=
  let s1 :=
    match lookupA s.socketConnections id with
    | some info =>
      let objs := setObjN s.objects info.objId
        (fun o => { o with reconnectAttempts := attemptNumber + 1 })
      { s with objects := objs }
    | Option.none => s
  startWebSocketM s1 id

/-! ### The facade (`startDataUpdates`) -/

inductive InitFetchOutcome where
  | fetchPending : InitFetchOutcome
  | fetchSettled (errorMsg : String) : InitFetchOutcome
  deriving DecidableEq

inductive FetchResult where
  | ok : FetchResult
  | fail (msg : String) : FetchResult
  deriving DecidableEq

/-- The synchronous part of `ApiService.startDataUpdates`: run
`fetchWidgetData` up to its first suspension.  A rate-limited call settles
immediately with the failure (its `.then` continuation is already
runnable); an allowed call leaves a network request in flight. -/
def startDataUpdatesCall (s : ApiState) (id : String) (now : Int) :
    ApiState × InitFetchOutcome :=
  match fetchWidgetDataGate s id now with
  | (.rateLimited m, s') => (s', .fetchSettled m)
  | (.allowed, s') => (s', .fetchPending)

/-- The `.then` continuation of `startDataUpdates`: on success deliver
`onUpdate`, then start the socket if a socket URL is configured, else start
polling with `skipInitialFetch = true` if the refresh interval is positive;
on failure deliver `onError` and start nothing. -/
def startDataUpdatesCont (s : ApiState) (id : String) (cfg : WidgetConfig)
    (res : FetchResult) : ApiState :=
  match res with
  | .ok =>
    let s1 := emit s (.onUpdate id)
    if jsTruthyOptStr cfg.socketUrl then startSocketM s1 id cfg
    else if refreshPos cfg then startPollingM s1 id cfg true 0
    else s1
  | .fail m => emit s (.onError id m)

/-! ### Helper lemmas about the model steps -/

theorem countNetwork_append (tr : List EngineEvent) (e : EngineEvent) :
    countNetwork (tr ++ [e])
      = countNetwork tr + (match e with | .networkRequest _ => 1 | _ => 0) := by
  simp only [countNetwork, List.filter_append]
  cases e <;> simp [List.filter]

theorem gate_fresh (s : ApiState) (id : String) (t : Int)
    (hfresh : lookupA s.lastRequestTime id = Option.none) :
    fetchWidgetDataGate s id t
      = (.allowed,
          { s with lastRequestTime := setKeyA s.lastRequestTime id t,
                   trace := s.trace ++ [.networkRequest id] }) := by
  simp only [fetchWidgetDataGate, hfresh]

theorem gate_limited (s : ApiState) (id : String) (t0 t1 : Int)
    (h : lookupA s.lastRequestTime id = some t0) (h0 : t0 ≠ 0) (hlt : t1 - t0 < 1000) :
    fetchWidgetDataGate s id t1 = (.rateLimited (rlMsg (1000 - (t1 - t0))), s) := by
  simp only [fetchWidgetDataGate, h]
  rw [if_pos ⟨h0, hlt⟩]

theorem startSocketM_fresh (s : ApiState) (id : String) (cfg : WidgetConfig)
    (hsock : lookupA s.socketConnections id = Option.none)
    (hurl : jsTruthyOptStr cfg.socketUrl = true) :
    countKeyA (startSocketM s id cfg).socketConnections id = 1
    ∧ (startSocketM s id cfg).pollingIntervals = s.pollingIntervals
    ∧ countNetwork (startSocketM s id cfg).trace = countNetwork s.trace := by
  have hconn : isSocketConnectedM s id = false := by
    simp [isSocketConnectedM, hsock]
  have hcount : countKeyA s.socketConnections id = 0 :=
    countKeyA_eq_zero_of_lookupA_none _ _ hsock
  unfold startSocketM
  rw [hconn, hurl]
  simp only [Bool.false_eq_true, if_false, Bool.not_true]
  by_cases hso : shouldUseSocketIO cfg = true
  · simp only [hso, if_true]
    unfold startSocketIOM
    refine ⟨?_, rfl, ?_⟩
    · rw [countKeyA_setKeyA, hcount]
      decide
    · rw [countNetwork_append]
      rfl
  · simp only [hso, Bool.false_eq_true, if_false]
    unfold startWebSocketM
    refine ⟨?_, rfl, ?_⟩
    · rw [countKeyA_setKeyA, hcount]
      decide
    · rw [countNetwork_append]
      rfl

theorem startPollingM_skip (s : ApiState) (id : String) (cfg : WidgetConfig) (now : Int)
    (hpoll : lookupA s.pollingIntervals id = Option.none)
    (hr : refreshPos cfg = true) :
    countKeyA (startPollingM s id cfg true now).pollingIntervals id = 1
    ∧ (startPollingM s id cfg true now).socketConnections = s.socketConnections
    ∧ countNetwork (startPollingM s id cfg true now).trace = countNetwork s.trace := by
  have hp : isPollingM s id = false := by
    simp [isPollingM, hpoll]
  have hcount : countKeyA s.pollingIntervals id = 0 :=
    countKeyA_eq_zero_of_lookupA_none _ _ hpoll
  unfold startPollingM
  rw [hp, hr]
  simp only [Bool.false_eq_true, if_false, if_true]
  refine ⟨?_, ?_, ?_⟩
  · rw [countKeyA_setKeyA, hcount]
    decide
  · trivial
  · rw [countNetwork_append]
    rfl

/-- Claim C4.  If two calls to `fetchWidgetData` for the same source id are
less than 1000 ms apart, the first passes the gate and issues exactly one
network request, the second returns the rate-limit failure carrying the
remaining wait time while leaving the state — in particular the stored
last-request timestamp, and the network-request count — entirely unchanged. -/
theorem c4_rate_limit (s0 : ApiState) (id : String) (t0 t1 : Int)
    (hfresh : lookupA s0.lastRequestTime id = Option.none)
    (ht0 : 0 < t0) (hlt : t1 - t0 < 1000) :
    (fetchWidgetDataGate s0 id t0).1 = .allowed
    ∧ countNetwork (fetchWidgetDataGate s0 id t0).2.trace = countNetwork s0.trace + 1
    ∧ fetchWidgetDataGate (fetchWidgetDataGate s0 id t0).2 id t1
        = (.rateLimited (rlMsg (1000 - (t1 - t0))), (fetchWidgetDataGate s0 id t0).2)
    ∧ lookupA (fetchWidgetDataGate (fetchWidgetDataGate s0 id t0).2 id t1).2.lastRequestTime id
        = some t0 := by
  have h1 := gate_fresh s0 id t0 hfresh
  have hlook : lookupA (fetchWidgetDataGate s0 id t0).2.lastRequestTime id = some t0 := by
    rw [h1]
    exact lookupA_setKeyA_self _ _ _
  have h2 := gate_limited (fetchWidgetDataGate s0 id t0).2 id t0 t1 hlook (by omega) hlt
  refine ⟨by rw [h1], ?_, h2, by rw [h2]; exact hlook⟩
  rw [h1, countNetwork_append]

/-- Witness for C4: with the first request at 5000 ms and the second at
5500 ms, the second is rejected with the 1-second rate-limit message and the
state is untouched. -/
theorem c4_witness :
    fetchWidgetDataGate (fetchWidgetDataGate emptyState "w" 5000).2 "w" 5500
      = (.rateLimited (rlMsg (1000 - (5500 - 5000))), (fetchWidgetDataGate emptyState "w" 5000).2)
    ∧ rlMsg (1000 - (5500 - 5000)) = "Rate limit: Please wait 1s before next request" := by
  have h := c4_rate_limit emptyState "w" 5000 5500 rfl (by decide) (by decide)
  exact ⟨h.2.2.1, by decide⟩

/-- Claim C5.  Calling `startDataUpdates` twice in a row (within the
1000 ms rate-limit window) for the same source id: the first call's fetch
goes out, the second call's fetch is rejected by the rate limiter and its
continuation only reports the error, and after the first call's
continuation runs, exactly one transport is active for the id — one
polling interval or one socket connection, never both and never
duplicates. -/
theorem c5_start_twice_single_transport
    (s0 : ApiState) (id : String) (cfg : WidgetConfig) (t0 t1 : Int)
    (hfresh : lookupA s0.lastRequestTime id = Option.none)
    (hpoll : lookupA s0.pollingIntervals id = Option.none)
    (hsock : lookupA s0.socketConnections id = Option.none)
    (ht0 : 0 < t0) (hlt : t1 - t0 < 1000)
    (htransport : jsTruthyOptStr cfg.socketUrl = true ∨ refreshPos cfg = true) :
    let c1 := startDataUpdatesCall s0 id t0
    let c2 := startDataUpdatesCall c1.1 id t1
    let s3 := startDataUpdatesCont c2.1 id cfg (.fail (rlMsg (1000 - (t1 - t0))))
    let s4 := startDataUpdatesCont s3 id cfg .ok
    c1.2 = .fetchPending
    ∧ c2 = (c1.1, .fetchSettled (rlMsg (1000 - (t1 - t0))))
    ∧ countKeyA s4.pollingIntervals id + countKeyA s4.socketConnections id = 1
    ∧ countKeyA s4.pollingIntervals id ≤ 1
    ∧ countKeyA s4.socketConnections id ≤ 1 := by
  intro c1 c2 s3 s4
  have hg1 := gate_fresh s0 id t0 hfresh
  have hc1 : c1 = ((fetchWidgetDataGate s0 id t0).2, .fetchPending) := by
    show startDataUpdatesCall s0 id t0 = _
    unfold startDataUpdatesCall
    rw [hg1]
  have hs1poll : (fetchWidgetDataGate s0 id t0).2.pollingIntervals = s0.pollingIntervals := by
    rw [hg1]
  have hs1sock : (fetchWidgetDataGate s0 id t0).2.socketConnections = s0.socketConnections := by
    rw [hg1]
  have hlook : lookupA (fetchWidgetDataGate s0 id t0).2.lastRequestTime id = some t0 := by
    rw [hg1]
    exact lookupA_setKeyA_self _ _ _
  have hg2 := gate_limited (fetchWidgetDataGate s0 id t0).2 id t0 t1 hlook (by omega) hlt
  have hc2 : c2 = ((fetchWidgetDataGate s0 id t0).2,
      .fetchSettled (rlMsg (1000 - (t1 - t0)))) := by
    show startDataUpdatesCall c1.1 id t1 = _
    rw [hc1]
    unfold startDataUpdatesCall
    rw [hg2]
  have hs3 : s3 = emit c2.1 (.onError id (rlMsg (1000 - (t1 - t0)))) := rfl
  have hs3poll : s3.pollingIntervals = s0.pollingIntervals := by
    rw [hs3, hc2]
    exact hs1poll
  have hs3sock : s3.socketConnections = s0.socketConnections := by
    rw [hs3, hc2]
    exact hs1sock
  refine ⟨by rw [hc1], by rw [hc2, hc1], ?_⟩
  show countKeyA s4.pollingIntervals id + countKeyA s4.socketConnections id = 1
    ∧ countKeyA s4.pollingIntervals id ≤ 1 ∧ countKeyA s4.socketConnections id ≤ 1
  have hs4 : s4 = startDataUpdatesCont s3 id cfg .ok := rfl
  by_cases hurl : jsTruthyOptStr cfg.socketUrl = true
  · have hs4' : s4 = startSocketM (emit s3 (.onUpdate id)) id cfg := by
      rw [hs4]
      unfold startDataUpdatesCont
      rw [hurl]
      simp only [if_true]
    have hesock : lookupA (emit s3 (.onUpdate id)).socketConnections id = Option.none := by
      show lookupA s3.socketConnections id = Option.none
      rw [hs3sock]
      exact hsock
    have h := startSocketM_fresh (emit s3 (.onUpdate id)) id cfg hesock hurl
    have hpc : countKeyA s4.pollingIntervals id = 0 := by
      rw [hs4', h.2.1]
      show countKeyA s3.pollingIntervals id = 0
      rw [hs3poll]
      exact countKeyA_eq_zero_of_lookupA_none _ _ hpoll
    have hsc : countKeyA s4.socketConnections id = 1 := by
      rw [hs4']
      exact h.1
    omega
  · have hr : refreshPos cfg = true := htransport.resolve_left hurl
    have hs4' : s4 = startPollingM (emit s3 (.onUpdate id)) id cfg true 0 := by
      rw [hs4]
      unfold startDataUpdatesCont
      simp only [hurl, Bool.false_eq_true, if_false, hr, if_true]
    have hepoll : lookupA (emit s3 (.onUpdate id)).pollingIntervals id = Option.none := by
      show lookupA s3.pollingIntervals id = Option.none
      rw [hs3poll]
      exact hpoll
    have h := startPollingM_skip (emit s3 (.onUpdate id)) id cfg 0 hepoll hr
    have hpc : countKeyA s4.pollingIntervals id = 1 := by
      rw [hs4']
      exact h.1
    have hsc : countKeyA s4.socketConnections id = 0 := by
      rw [hs4', h.2.1]
      show countKeyA s3.socketConnections id = 0
      rw [hs3sock]
      exact countKeyA_eq_zero_of_lookupA_none _ _ hsock
    omega

def cfgSock : WidgetConfig :=
  ⟨"https://api.example.com/data", some "wss://stream.example.com", Option.none,
   Option.none, Option.none, Option.none⟩

def cfgPoll : WidgetConfig :=
  ⟨"https://api.example.com/data", Option.none, Option.none, some 5000,
   Option.none, Option.none⟩

/-- Witness for C5 at a concrete socket configuration and concrete call
times 50 ms apart. -/
theorem c5_witness :
    (let c1 := startDataUpdatesCall emptyState "w" 500
     let c2 := startDataUpdatesCall c1.1 "w" 550
     let s3 := startDataUpdatesCont c2.1 "w" cfgSock (.fail (rlMsg (1000 - (550 - 500))))
     let s4 := startDataUpdatesCont s3 "w" cfgSock .ok
     countKeyA s4.pollingIntervals "w" + countKeyA s4.socketConnections "w" = 1) := by
  have h := c5_start_twice_single_transport emptyState "w" cfgSock 500 550
    rfl rfl rfl (by decide) (by decide) (Or.inl (by decide))
  exact h.2.2.1

/-- Claim C6.  `startDataUpdates` performs exactly one immediate HTTP fetch
first, before any transport exists (regardless of the eventual transport);
only on that fetch's success does its continuation start the socket when a
socket URL is configured, else polling with `skipInitialFetch = true` (no
second fetch) when the refresh interval is positive; on failure it reports
`onError` and starts no transport. -/
theorem c6_initial_fetch_first
    (s0 : ApiState) (id : String) (cfg : WidgetConfig) (t0 : Int) (m : String)
    (hfresh : lookupA s0.lastRequestTime id = Option.none)
    (hpoll : lookupA s0.pollingIntervals id = Option.none)
    (hsock : lookupA s0.socketConnections id = Option.none) :
    let c1 := startDataUpdatesCall s0 id t0
    c1.2 = .fetchPending
    ∧ countNetwork c1.1.trace = countNetwork s0.trace + 1
    ∧ countKeyA c1.1.pollingIntervals id = 0
    ∧ countKeyA c1.1.socketConnections id = 0
    ∧ (jsTruthyOptStr cfg.socketUrl = true →
        countKeyA (startDataUpdatesCont c1.1 id cfg .ok).socketConnections id = 1
        ∧ countKeyA (startDataUpdatesCont c1.1 id cfg .ok).pollingIntervals id = 0
        ∧ countNetwork (startDataUpdatesCont c1.1 id cfg .ok).trace = countNetwork c1.1.trace)
    ∧ (jsTruthyOptStr cfg.socketUrl = false → refreshPos cfg = true →
        countKeyA (startDataUpdatesCont c1.1 id cfg .ok).pollingIntervals id = 1
        ∧ countKeyA (startDataUpdatesCont c1.1 id cfg .ok).socketConnections id = 0
        ∧ countNetwork (startDataUpdatesCont c1.1 id cfg .ok).trace = countNetwork c1.1.trace)
    ∧ (startDataUpdatesCont c1.1 id cfg (.fail m) = emit c1.1 (.onError id m)
        ∧ countKeyA (startDataUpdatesCont c1.1 id cfg (.fail m)).pollingIntervals id = 0
        ∧ countKeyA (startDataUpdatesCont c1.1 id cfg (.fail m)).socketConnections id = 0) := by
  intro c1
  have hg1 := gate_fresh s0 id t0 hfresh
  have hc1 : c1 = ((fetchWidgetDataGate s0 id t0).2, .fetchPending) := by
    show startDataUpdatesCall s0 id t0 = _
    unfold startDataUpdatesCall
    rw [hg1]
  have hs1poll : c1.1.pollingIntervals = s0.pollingIntervals := by rw [hc1, hg1]
  have hs1sock : c1.1.socketConnections = s0.socketConnections := by rw [hc1, hg1]
  have hpc0 : countKeyA c1.1.pollingIntervals id = 0 := by
    rw [hs1poll]
    exact countKeyA_eq_zero_of_lookupA_none _ _ hpoll
  have hsc0 : countKeyA c1.1.socketConnections id = 0 := by
    rw [hs1sock]
    exact countKeyA_eq_zero_of_lookupA_none _ _ hsock
  refine ⟨by rw [hc1], ?_, hpc0, hsc0, ?_, ?_, ?_⟩
  · rw [hc1, hg1, countNetwork_append]
  · intro hurl
    have hs4' : startDataUpdatesCont c1.1 id cfg .ok
        = startSocketM (emit c1.1 (.onUpdate id)) id cfg := by
      unfold startDataUpdatesCont
      rw [hurl]
      simp only [if_true]
    have hesock : lookupA (emit c1.1 (.onUpdate id)).socketConnections id = Option.none := by
      show lookupA c1.1.socketConnections id = Option.none
      rw [hs1sock]
      exact hsock
    have h := startSocketM_fresh (emit c1.1 (.onUpdate id)) id cfg hesock hurl
    refine ⟨by rw [hs4']; exact h.1, ?_, ?_⟩
    · rw [hs4', h.2.1]
      exact hpc0
    · rw [hs4', h.2.2, show (emit c1.1 (.onUpdate id)).trace = c1.1.trace ++ [.onUpdate id] from rfl,
        countNetwork_append]
      rfl
  · intro hurl hr
    have hs4' : startDataUpdatesCont c1.1 id cfg .ok
        = startPollingM (emit c1.1 (.onUpdate id)) id cfg true 0 := by
      unfold startDataUpdatesCont
      simp only [hurl, Bool.false_eq_true, if_false, hr, if_true]
    have hepoll : lookupA (emit c1.1 (.onUpdate id)).pollingIntervals id = Option.none := by
      show lookupA c1.1.pollingIntervals id = Option.none
      rw [hs1poll]
      exact hpoll
    have h := startPollingM_skip (emit c1.1 (.onUpdate id)) id cfg 0 hepoll hr
    refine ⟨by rw [hs4']; exact h.1, ?_, ?_⟩
    · rw [hs4', h.2.1]
      exact hsc0
    · rw [hs4', h.2.2, show (emit c1.1 (.onUpdate id)).trace = c1.1.trace ++ [.onUpdate id] from rfl,
        countNetwork_append]
      rfl
  · refine ⟨rfl, ?_, ?_⟩
    · show countKeyA c1.1.pollingIntervals id = 0
      exact hpc0
    · show countKeyA c1.1.socketConnections id = 0
      exact hsc0

/-- Witness for C6 at a concrete polling configuration. -/
theorem c6_witness :
    (let c1 := startDataUpdatesCall emptyState "w" 500
     countKeyA (startDataUpdatesCont c1.1 "w" cfgPoll .ok).pollingIntervals "w" = 1) := by
  have h := c6_initial_fetch_first emptyState "w" cfgPoll 500 "boom" rfl rfl rfl
  exact (h.2.2.2.2.2.1 (by decide) (by decide)).1

/-! ### The raw-WebSocket reconnection scenario (C7) -/

def c7cfg : WidgetConfig :=
  ⟨"https://api.example.com/data", some "wss://stream.example.com", Option.none, some 5000,
   Option.none, Option.none⟩

/-- One abnormal-close cycle: the live socket's `onclose` fires with code
1006, then the scheduled reconnect timer (if any) fires. -/
def wsAbnormalCloseFire (s : ApiState) (id : String) (cfg : WidgetConfig) : ApiState :=
  let s1 :=
    match lookupA s.socketConnections id with
    | some info => wsOnCloseM s id cfg info.objId 1006 0
    | Option.none => s
  match s1.pendingReconnects with
  | (_, wid, an) :: rest => wsReconnectFireM { s1 with pendingReconnects := rest } wid an
  | [] => s1

def runAbnormalCycles (id : String) (cfg : WidgetConfig) : Nat → ApiState → ApiState
  | 0, s => s
  | n + 1, s => runAbnormalCycles id cfg n (wsAbnormalCloseFire s id cfg)

/-- Evaluation of the code at the C7 failing input: a raw WebSocket source
whose connection closes abnormally (code 1006) six times in a row.  Because
`onclose` deletes the map entry before `scheduleWebSocketReconnect` runs,
and because each reconnect creates a fresh state object with counter 0, the
reconnect-attempt counter never leaves 0: a sixth (and any further)
reconnect is still scheduled, always with the base 2000 ms delay, no
terminal `onError` is ever surfaced, and no fallback polling is started
despite `refreshInterval = 5000`. -/
theorem c7_code_evaluation :
    (let sFinal := runAbnormalCycles "w1" c7cfg 6 (startWebSocketM emptyState "w1")
     ((sFinal.trace.filter fun e =>
        match e with
        | .reconnectScheduled _ _ _ => true
        | _ => false).length = 6)
     ∧ (sFinal.trace.any fun e =>
          match e with
          | .onError _ _ => true
          | _ => false) = false
     ∧ (sFinal.trace.all fun e =>
          match e with
          | .reconnectScheduled _ d _ => d == 2000
          | _ => true) = true
     ∧ (match lookupA sFinal.socketConnections "w1" with
        | some info => ((lookupObjL sFinal.objects info.objId).getD default).reconnectAttempts
        | Option.none => 99) = 0
     ∧ countKeyA sFinal.pollingIntervals "w1" = 0) := by
  constructor
  · decide
  · refine ⟨?_, ?_, ?_, ?_⟩ <;> decide

end FinBoard
